import Mathlib

/-!
Verification development for the adaptive hash index (AHI) of
storage/innobase/btr/btr0sea.cc.

The C code is shallowly embedded: pure computations become Lean functions,
stateful code becomes explicit state passing over record types, linked
bucket chains become Lean lists in traversal order, and machine integers
become Nat (overflow is irrelevant at the sizes involved; where a C
expression could wrap in an intermediate step the Nat expression is chosen
to agree with the final C value, with a comment).  External collaborators
(record comparison, buffer-pool translation, page iteration) enter as
explicit oracle parameters.
-/

/-! ## CRC-32C and the fold functions (btr0sea.cc lines 148-244 and 1138-1188)

my_crc32c is the engine-wide CRC-32C primitive (outside btr0sea.cc).  It is
the standard reflected CRC-32C: state is inverted on entry and exit and each
byte is folded by eight shift/xor rounds with the Castagnoli polynomial.
Only two properties are used below: it is a deterministic function of the
seed and the byte string, and it chains over concatenation. -/

def CRC32C_POLY : Nat := 0x82F63B78

def crc32c_round (c : Nat) : Nat :=
  if c % 2 = 1 then (c / 2) ^^^ CRC32C_POLY else c / 2

def crc32c_update_byte (c b : Nat) : Nat :=
  crc32c_round (crc32c_round (crc32c_round (crc32c_round
    (crc32c_round (crc32c_round (crc32c_round (crc32c_round (c ^^^ b % 256))))))))

def my_crc32c (crc : Nat) (data : List Nat) : Nat :=
  (data.foldl crc32c_update_byte (crc ^^^ 0xFFFFFFFF)) ^^^ 0xFFFFFFFF

theorem my_crc32c_append (crc : Nat) (a b : List Nat) :
    my_crc32c (my_crc32c crc a) b = my_crc32c crc (a ++ b) := by
  simp only [my_crc32c, List.foldl_append]
  congr 1
  rw [Nat.xor_assoc, Nat.xor_self, Nat.xor_zero]

/-- Modelled from the spec: the 32-bit seed derived from the index identifier,
uint32_t(ut_fold_ull(index.id)) in the source (ut_fold_ull lives outside
src/).  The only property the development uses is that equal index ids give
equal seeds, so the fold functions below simply take the seed as a
parameter; this function is used where a seed must be produced from an id. -/
def index_id_seed (id : Nat) : Nat := id % 4294967296

/-- Stored field of a B-tree record.  bytes are the bytes of the field in
the record frame.  In the compact (not_redundant) row format a NULL field
occupies no bytes; in the legacy redundant format a NULL field stores a
zeroed fixed-length placeholder, which here appears as its bytes. -/
structure rec_field where
  is_null : Bool
  bytes : List Nat
deriving Repr, DecidableEq

/-- Field of a search tuple (dfield_t).  null_size models
dtype_get_sql_null_size(type, 0), the length of the zeroed placeholder used
for a NULL field in the redundant format. -/
structure dfield_t where
  is_null : Bool
  data : List Nat
  null_size : Nat
deriving Repr, DecidableEq

/-- Length that the rec_fold loop assigns to one compact-format field
(btr0sea.cc lines 177-209): 0 for NULL (the loop sets len= 0 and skips the
accumulation), otherwise the stored length read from the length bytes,
which for a well-formed record is the byte count of the field. -/
def rec_field_comp_len (f : rec_field) : Nat :=
  if f.is_null then 0 else f.bytes.length

/-- Byte image of the record data area in the compact format: the fields
stored back to back, NULL fields occupying no space. -/
def rec_comp_data (fields : List rec_field) : List Nat :=
  (fields.map (fun f => if f.is_null then [] else f.bytes)).flatten

/-- Byte image of the record data area in the redundant format: every field
stores its bytes (a NULL field stores its zeroed placeholder). -/
def rec_red_data (fields : List rec_field) : List Nat :=
  (fields.map rec_field.bytes).flatten

/-- Cumulative end offset of field i in the redundant format, as returned
by rec_1_get_field_end_info / rec_2_get_field_end_info: the sum of the
stored lengths of fields 0..i.  The 1-byte and 2-byte offset encodings read
the same value, so a single definition models both branches. -/
def rec_get_field_end_info (fields : List rec_field) (i : Nat) : Nat :=
  ((fields.take (i + 1)).map (fun f => f.bytes.length)).sum

/-- Embedding of rec_fold (btr0sea.cc lines 154-244).  The record is given
as its list of fields; not_redundant selects the compact branch; id_seed is
uint32_t(ut_fold_ull(index.id)).  The function computes the byte count n of
the hashed key prefix exactly as the source does and then hashes the first
n bytes of the record data area. -/
def rec_fold (fields : List rec_field) (not_redundant : Bool) (id_seed : Nat)
    (n_fields n_bytes : Nat) : Nat :=
  let n_f : Nat := n_fields + (if n_bytes ≠ 0 then 1 else 0)
  if not_redundant then
    -- lines 167-213: walk the null bitmap and length bytes of the first
    -- n_f fields, accumulating n; len retains the last field processed
    let lens := (fields.take n_f).map rec_field_comp_len
    let n0 := lens.sum
    let len := lens.getLastD 0
    -- line 211-212: if (n_bytes) n += std::min(n_bytes, len) - len;
    -- (n0 >= len, so the Nat expression agrees with the size_t result)
    let n := if n_bytes ≠ 0 then n0 + min n_bytes len - len else n0
    my_crc32c id_seed ((rec_comp_data fields).take n)
  else
    -- lines 216-240: both offset encodings reduce to the end-info reads
    let n1 := rec_get_field_end_info fields (n_f - 1)
    let n :=
      if n_bytes = 0 then n1
      else if n_fields = 0 then min n_bytes n1
      else
        -- size_t len= n - rec_?_get_field_end_info(rec, n_f - 2);
        -- n+= std::min(n_bytes, n - len) - len;
        let len := n1 - rec_get_field_end_info fields (n_f - 2)
        n1 + min n_bytes (n1 - len) - len
    my_crc32c id_seed ((rec_red_data fields).take n)

/-- Embedding of dtuple_fold (btr0sea.cc lines 1142-1188).  comp is
index()->table->not_redundant(); id_seed is uint32_t(ut_fold_ull(id)).
NULL fields are skipped in the compact format and contribute null_size zero
bytes (field_ref_zero) in the redundant format. -/
def dtuple_fold (comp : Bool) (id_seed : Nat) (tuple : List dfield_t)
    (n_fields n_bytes : Nat) : Nat :=
  let step : Nat → dfield_t → Nat := fun fold f =>
    if f.is_null then
      if comp then fold else my_crc32c fold (List.replicate f.null_size 0)
    else my_crc32c fold f.data
  let fold := (tuple.take n_fields).foldl step id_seed
  if n_bytes ≠ 0 then
    let f := tuple.getD n_fields ⟨true, [], 0⟩
    if f.is_null then
      if comp then fold
      else my_crc32c fold (List.replicate (min n_bytes f.null_size) 0)
    else my_crc32c fold (f.data.take (min n_bytes f.data.length))
  else fold

theorem my_crc32c_nil (crc : Nat) : my_crc32c crc [] = crc := by
  simp only [my_crc32c, List.foldl_nil]
  rw [Nat.xor_assoc, Nat.xor_self, Nat.xor_zero]

/-! ## Claim C2: fold agreement between a record and a matching tuple

The spec demands rec_fold(r) == dtuple_fold(t) whenever t matches r on the
hashed positions.  dtuple_matches_rec states the match hypothesis from the
spec: equal on the first n_fields complete fields and on the first n_bytes
bytes of field n_fields, with NULL fields represented as the row format
stores them. -/

/-- Modelled from the spec: the tuple matches the record on the first
n_fields complete fields and the first n_bytes bytes of the next field.
For a NULL field the record stores no bytes in the compact format and a
zeroed placeholder of the sql null size in the redundant format. -/
def dfield_matches (comp : Bool) (t : dfield_t) (r : rec_field) : Prop :=
  t.is_null = r.is_null ∧
  (t.is_null = false → t.data = r.bytes) ∧
  (t.is_null = true → r.bytes = if comp then [] else List.replicate t.null_size 0)

instance (comp : Bool) (t : dfield_t) (r : rec_field) :
    Decidable (dfield_matches comp t r) := by
  unfold dfield_matches; infer_instance

/-- Modelled from the spec: match of tuple and record on the hashed
positions (n_fields complete fields, n_bytes bytes of the next field). -/
def dtuple_matches_rec (comp : Bool) (tuple : List dfield_t)
    (fields : List rec_field) (n_fields n_bytes : Nat) : Prop :=
  let n_f := n_fields + (if n_bytes ≠ 0 then 1 else 0)
  n_f ≤ fields.length ∧ n_f ≤ tuple.length ∧
  (∀ i, i < n_fields → dfield_matches comp (tuple.getD i ⟨true, [], 0⟩)
      (fields.getD i ⟨true, []⟩)) ∧
  (n_bytes ≠ 0 →
    let t := tuple.getD n_fields ⟨true, [], 0⟩
    let r := fields.getD n_fields ⟨true, []⟩
    t.is_null = r.is_null ∧
    (t.is_null = false → t.data.take n_bytes = r.bytes.take n_bytes) ∧
    (t.is_null = true → r.bytes = if comp then [] else List.replicate t.null_size 0))

instance (comp : Bool) (tuple : List dfield_t) (fields : List rec_field)
    (n_fields n_bytes : Nat) :
    Decidable (dtuple_matches_rec comp tuple fields n_fields n_bytes) := by
  unfold dtuple_matches_rec; infer_instance

/-- Record for the C2 failing input: redundant row format, two non-NULL
fields of 2 and 3 bytes. -/
def c2_rec : List rec_field :=
  [⟨false, [0x41, 0x42]⟩, ⟨false, [0x43, 0x44, 0x45]⟩]

/-- Tuple for the C2 failing input: identical to the record fields. -/
def c2_tuple : List dfield_t :=
  [⟨false, [0x41, 0x42], 0⟩, ⟨false, [0x43, 0x44, 0x45], 0⟩]

/-- Claim C2 (code_bug evaluation): with the legacy redundant row format,
signature (n_fields, n_bytes) = (1, 3) and a tuple equal to the record on
those positions, rec_fold and dtuple_fold disagree.  The redundant branch
of rec_fold computes std::min(n_bytes, n - len), capping the extra bytes by
the length of the preceding prefix instead of by the last field's length
len (the compact branch uses std::min(n_bytes, len)), so it hashes 4 bytes
of the record while dtuple_fold hashes 5 bytes of the tuple. -/
theorem c2_rec_fold_dtuple_fold_mismatch :
    dtuple_matches_rec false c2_tuple c2_rec 1 3 ∧
    rec_fold c2_rec false 0 1 3 ≠ dtuple_fold false 0 c2_tuple 1 3 := by
  constructor
  · decide
  · decide

/-! ## Per-index search heuristic (btr0sea.cc lines 395-499)

dict_index_ahi models the AHI fields of dict_index_t::ahi (search_info).
btr_cur models the fields of btr_cur_t that the AHI reads and writes.
All counters are Nat; the uint16 casts in the source cannot wrap at the
values a B-tree descent can produce (matches are bounded by the number of
index fields). -/

/-- Search-info fields of dict_index_t::ahi used by btr0sea.cc. -/
structure dict_index_ahi where
  n_fields : Nat
  n_bytes : Nat
  left_side : Bool
  n_hash_potential : Nat
  last_hash_succ : Bool
  ref_count : Nat
deriving Repr, DecidableEq

/-- Modelled from the spec: ut_pair_cmp (outside src/) is lexicographic
comparison of the pairs (a1, b1) and (a2, b2): positive, zero or negative
like a three-way compare, fields first, byte counts second. -/
def ut_pair_cmp (a1 b1 a2 b2 : Nat) : Int :=
  if a1 > a2 then 1
  else if a1 < a2 then -1
  else if b1 > b2 then 1
  else if b1 < b2 then -1
  else 0

/-- Modelled from the spec: hash_analysis_reset() zeros the recommendation
(declared in dict0mem.h, outside src/).  Every recommendation field is
overwritten immediately afterwards by the set_new_recomm code, so only the
zeroing of the prefix is modelled. -/
def hash_analysis_reset (info : dict_index_ahi) : dict_index_ahi :=
  { info with n_fields := 0, n_bytes := 0 }

/-- Cursor method flags (enum btr_cur_method) that btr0sea.cc manipulates. -/
inductive btr_cur_method where
  | BTR_CUR_HASH
  | BTR_CUR_HASH_FAIL
  | BTR_CUR_BINARY
deriving Repr, DecidableEq

/-- Fields of btr_cur_t read and written by btr0sea.cc.  rec_id is the
record the cursor is positioned on, the field named rec in the source
(record identities are Nat; Lean reserves the name rec). -/
structure btr_cur where
  low_match : Nat
  low_bytes : Nat
  up_match : Nat
  up_bytes : Nat
  n_fields : Nat
  n_bytes : Nat
  fold : Nat
  flag : btr_cur_method
  rec_id : Nat
deriving Repr, DecidableEq

/-- Embedding of the set_new_recomm tail of btr_search_info_update_hash
(btr0sea.cc lines 447-499). -/
def btr_search_info_update_hash_reset (n_unique : Nat) (cursor : btr_cur)
    (info : dict_index_ahi) : dict_index_ahi :=
  let info := hash_analysis_reset info
  let cmp := ut_pair_cmp cursor.up_match cursor.up_bytes
    cursor.low_match cursor.low_bytes
  let info := { info with left_side := decide (cmp ≥ 0),
                          n_hash_potential := if cmp ≠ 0 then 1 else 0 }
  if cmp = 0 then
    -- for extra safety, we set some sensible values here
    { info with n_fields := 1, n_bytes := 0 }
  else if cmp > 0 then
    { info with
      n_hash_potential := 1,
      n_fields :=
        if cursor.up_match ≥ n_unique then n_unique
        else if cursor.low_match < cursor.up_match then cursor.low_match + 1
        else cursor.low_match,
      n_bytes :=
        if cursor.up_match ≥ n_unique then 0
        else if cursor.low_match < cursor.up_match then 0
        else cursor.low_bytes + 1 }
  else
    { info with
      n_fields :=
        if cursor.low_match ≥ n_unique then n_unique
        else if cursor.low_match > cursor.up_match then cursor.up_match + 1
        else cursor.up_match,
      n_bytes :=
        if cursor.low_match ≥ n_unique then 0
        else if cursor.low_match > cursor.up_match then 0
        else cursor.up_bytes + 1 }

/-- Embedding of btr_search_info_update_hash (btr0sea.cc lines 399-499).
is_ibuf is dict_index_is_ibuf(index); n_unique is
dict_index_get_n_unique_in_tree(index). -/
def btr_search_info_update_hash (is_ibuf : Bool) (n_unique : Nat)
    (cursor : btr_cur) (info : dict_index_ahi) : dict_index_ahi :=
  if is_ibuf then info
  else if info.n_hash_potential = 0 then
    btr_search_info_update_hash_reset n_unique cursor info
  else if info.n_fields ≥ n_unique ∧ cursor.up_match ≥ n_unique then
    -- increment_potential: NOTE no cap is applied on this path
    { info with n_hash_potential := info.n_hash_potential + 1 }
  else
    let cmpLow := ut_pair_cmp info.n_fields info.n_bytes
      cursor.low_match cursor.low_bytes
    if (if info.left_side then cmpLow ≤ 0 else cmpLow > 0) then
      btr_search_info_update_hash_reset n_unique cursor info
    else
      let cmpUp := ut_pair_cmp info.n_fields info.n_bytes
        cursor.up_match cursor.up_bytes
      if (if info.left_side then cmpUp ≤ 0 else cmpUp > 0) then
        { info with n_hash_potential := info.n_hash_potential + 1 }
      else
        btr_search_info_update_hash_reset n_unique cursor info

/-- Condition under which btr_search_info_update_hash reaches the
set_new_recomm label (resets the recommendation). -/
def btr_search_info_update_hash_resets (n_unique : Nat) (cursor : btr_cur)
    (info : dict_index_ahi) : Prop :=
  info.n_hash_potential = 0 ∨
  (¬(info.n_fields ≥ n_unique ∧ cursor.up_match ≥ n_unique) ∧
    (let cmpLow := ut_pair_cmp info.n_fields info.n_bytes
        cursor.low_match cursor.low_bytes
     (if info.left_side then cmpLow ≤ 0 else cmpLow > 0) ∨
      (let cmpUp := ut_pair_cmp info.n_fields info.n_bytes
          cursor.up_match cursor.up_bytes
       ¬(if info.left_side then cmpLow ≤ 0 else cmpLow > 0) ∧
       ¬(if info.left_side then cmpUp ≤ 0 else cmpUp > 0))))

instance (n_unique : Nat) (cursor : btr_cur) (info : dict_index_ahi) :
    Decidable (btr_search_info_update_hash_resets n_unique cursor info) := by
  unfold btr_search_info_update_hash_resets; infer_instance

theorem info_update_hash_eq_reset (n_unique : Nat) (cursor : btr_cur)
    (info : dict_index_ahi)
    (h : btr_search_info_update_hash_resets n_unique cursor info) :
    btr_search_info_update_hash false n_unique cursor info =
      btr_search_info_update_hash_reset n_unique cursor info := by
  simp only [btr_search_info_update_hash_resets] at h
  simp only [btr_search_info_update_hash, Bool.false_eq_true, if_false]
  split_ifs <;> simp_all

theorem reset_left_side (n_unique : Nat) (cursor : btr_cur)
    (info : dict_index_ahi) :
    (btr_search_info_update_hash_reset n_unique cursor info).left_side =
      decide (ut_pair_cmp cursor.up_match cursor.up_bytes
        cursor.low_match cursor.low_bytes ≥ 0) := by
  simp only [btr_search_info_update_hash_reset, hash_analysis_reset]
  split_ifs <;> rfl

theorem reset_n_hash_potential (n_unique : Nat) (cursor : btr_cur)
    (info : dict_index_ahi) :
    (btr_search_info_update_hash_reset n_unique cursor info).n_hash_potential =
      (if ut_pair_cmp cursor.up_match cursor.up_bytes
          cursor.low_match cursor.low_bytes ≠ 0 then 1 else 0) := by
  simp only [btr_search_info_update_hash_reset, hash_analysis_reset]
  split_ifs with h1 h2 <;> simp_all

theorem reset_sig (n_unique : Nat) (cursor : btr_cur) (info : dict_index_ahi) :
    let r := btr_search_info_update_hash_reset n_unique cursor info
    let cmp := ut_pair_cmp cursor.up_match cursor.up_bytes
      cursor.low_match cursor.low_bytes
    (cmp = 0 → r.n_fields = 1 ∧ r.n_bytes = 0) ∧
    (cmp > 0 →
      (cursor.up_match ≥ n_unique → r.n_fields = n_unique ∧ r.n_bytes = 0) ∧
      (cursor.up_match < n_unique → cursor.low_match < cursor.up_match →
        r.n_fields = cursor.low_match + 1 ∧ r.n_bytes = 0) ∧
      (cursor.up_match < n_unique → ¬cursor.low_match < cursor.up_match →
        r.n_fields = cursor.low_match ∧ r.n_bytes = cursor.low_bytes + 1)) ∧
    (cmp < 0 →
      (cursor.low_match ≥ n_unique → r.n_fields = n_unique ∧ r.n_bytes = 0) ∧
      (cursor.low_match < n_unique → cursor.low_match > cursor.up_match →
        r.n_fields = cursor.up_match + 1 ∧ r.n_bytes = 0) ∧
      (cursor.low_match < n_unique → ¬cursor.low_match > cursor.up_match →
        r.n_fields = cursor.up_match ∧ r.n_bytes = cursor.up_bytes + 1)) := by
  simp only [btr_search_info_update_hash_reset, hash_analysis_reset]
  split_ifs <;> simp_all <;> omega

/-- Claim C4: whenever the heuristic resets the recommendation after a
descent with match pairs (low_match, low_bytes) and (up_match, up_bytes),
it sets left_side to (up >= low) and n_hash_potential to (up != low) under
the lexicographic pair order; if up == low the new signature is (1, 0); if
up > low it is (n_unique, 0) when up_match >= n_unique, else
(low_match+1, 0) when low_match < up_match, else (low_match, low_bytes+1);
and symmetrically when up < low. -/
theorem c4_info_update_hash_reset_recommendation (n_unique : Nat)
    (cursor : btr_cur) (info : dict_index_ahi)
    (h : btr_search_info_update_hash_resets n_unique cursor info) :
    let r := btr_search_info_update_hash false n_unique cursor info
    let cmp := ut_pair_cmp cursor.up_match cursor.up_bytes
      cursor.low_match cursor.low_bytes
    r.left_side = decide (cmp ≥ 0) ∧
    r.n_hash_potential = (if cmp ≠ 0 then 1 else 0) ∧
    (cmp = 0 → r.n_fields = 1 ∧ r.n_bytes = 0) ∧
    (cmp > 0 →
      (cursor.up_match ≥ n_unique → r.n_fields = n_unique ∧ r.n_bytes = 0) ∧
      (cursor.up_match < n_unique → cursor.low_match < cursor.up_match →
        r.n_fields = cursor.low_match + 1 ∧ r.n_bytes = 0) ∧
      (cursor.up_match < n_unique → ¬cursor.low_match < cursor.up_match →
        r.n_fields = cursor.low_match ∧ r.n_bytes = cursor.low_bytes + 1)) ∧
    (cmp < 0 →
      (cursor.low_match ≥ n_unique → r.n_fields = n_unique ∧ r.n_bytes = 0) ∧
      (cursor.low_match < n_unique → cursor.low_match > cursor.up_match →
        r.n_fields = cursor.up_match + 1 ∧ r.n_bytes = 0) ∧
      (cursor.low_match < n_unique → ¬cursor.low_match > cursor.up_match →
        r.n_fields = cursor.up_match ∧ r.n_bytes = cursor.up_bytes + 1)) := by
  simp only []
  rw [info_update_hash_eq_reset n_unique cursor info h]
  exact ⟨reset_left_side _ _ _, reset_n_hash_potential _ _ _,
    (reset_sig _ _ _).1, (reset_sig _ _ _).2.1, (reset_sig _ _ _).2.2⟩

/-- Witness for C4: a concrete descent that triggers the reset, with the
resulting recommendation evaluated. -/
theorem c4_info_update_hash_reset_recommendation_witness :
    btr_search_info_update_hash_resets 2
      ⟨1, 0, 1, 2, 0, 0, 0, .BTR_CUR_BINARY, 0⟩ ⟨0, 0, false, 0, false, 0⟩ ∧
    (btr_search_info_update_hash false 2
      ⟨1, 0, 1, 2, 0, 0, 0, .BTR_CUR_BINARY, 0⟩
      ⟨0, 0, false, 0, false, 0⟩).n_fields = 1 ∧
    (btr_search_info_update_hash false 2
      ⟨1, 0, 1, 2, 0, 0, 0, .BTR_CUR_BINARY, 0⟩
      ⟨0, 0, false, 0, false, 0⟩).n_bytes = 1 := by
  refine ⟨by decide, ?_, ?_⟩
  · have h := c4_info_update_hash_reset_recommendation 2
      ⟨1, 0, 1, 2, 0, 0, 0, .BTR_CUR_BINARY, 0⟩ ⟨0, 0, false, 0, false, 0⟩
      (by decide)
    exact ((h.2.2.2.1 (by decide)).2.2 (by decide) (by decide)).1
  · have h := c4_info_update_hash_reset_recommendation 2
      ⟨1, 0, 1, 2, 0, 0, 0, .BTR_CUR_BINARY, 0⟩ ⟨0, 0, false, 0, false, 0⟩
      (by decide)
    exact ((h.2.2.2.1 (by decide)).2.2 (by decide) (by decide)).2

/-! ## Claim C7: the n_hash_potential cap

Constants from btr0sea.cc lines 142 and 146. -/

def BTR_SEARCH_PAGE_BUILD_LIMIT : Nat := 16

def BTR_SEARCH_BUILD_LIMIT : Nat := 100

/-- Embedding of the n_hash_potential update on the successful-lookup path
(btr0sea.cc lines 1351-1353): the counter is incremented only while below
BTR_SEARCH_BUILD_LIMIT + 5. -/
def guess_on_hash_potential_bump (p : Nat) : Nat :=
  if p < BTR_SEARCH_BUILD_LIMIT + 5 then p + 1 else p

/-- Effect of a validated btr_search_guess_on_hash on the search info
(btr0sea.cc lines 1351-1355). -/
def btr_search_guess_success_info (info : dict_index_ahi) : dict_index_ahi :=
  { info with
    n_hash_potential := guess_on_hash_potential_bump info.n_hash_potential,
    last_hash_succ := true }

/-- States of one index's search info reachable through the updates named
in claim C7: the per-descent heuristic update and the successful-lookup
bump, starting from a zero-initialised info. -/
inductive info_reachable : dict_index_ahi → Prop where
  | init : info_reachable ⟨0, 0, false, 0, false, 0⟩
  | update (is_ibuf : Bool) (n_unique : Nat) (cursor : btr_cur)
      {i : dict_index_ahi} : info_reachable i →
      info_reachable (btr_search_info_update_hash is_ibuf n_unique cursor i)
  | lookup {i : dict_index_ahi} : info_reachable i →
      info_reachable (btr_search_guess_success_info i)

/-- Descent used to drive the C7 counterexample: up strictly above low and
covering the single unique field. -/
def c7_cursor : btr_cur := ⟨0, 0, 1, 0, 0, 0, 0, .BTR_CUR_BINARY, 0⟩

/-- State after 106 heuristic updates with c7_cursor from a fresh info: one
reset to n_hash_potential = 1, then 105 uncapped increments. -/
def c7_state : dict_index_ahi :=
  (btr_search_info_update_hash false 1 c7_cursor)^[106] ⟨0, 0, false, 0, false, 0⟩

theorem info_reachable_iterate (k : Nat) (i : dict_index_ahi)
    (h : info_reachable i) :
    info_reachable ((btr_search_info_update_hash false 1 c7_cursor)^[k] i) := by
  induction k with
  | zero => simpa using h
  | succ n ih =>
    rw [Function.iterate_succ_apply']
    exact .update false 1 c7_cursor ih

set_option maxRecDepth 4000 in
/-- Counterexample to claim C7: n_hash_potential is NOT capped at
BTR_SEARCH_BUILD_LIMIT + 5 = 105 over the increments of
btr_search_info_update_hash and the lookup path; 106 heuristic updates
drive it to 106, because the increment at btr0sea.cc line 426 applies no
cap (only the lookup path at lines 1351-1353 does). -/
theorem c7_counterexample_potential_exceeds_cap :
    info_reachable c7_state ∧
    BTR_SEARCH_BUILD_LIMIT + 5 < c7_state.n_hash_potential := by
  refine ⟨info_reachable_iterate 106 _ .init, by decide⟩

/-- Claim C7 (amended): the cap applies to the successful-lookup path only.
The bump performed by btr_search_guess_on_hash never raises
n_hash_potential above BTR_SEARCH_BUILD_LIMIT + 5 = 105 (it increments only
while strictly below the cap), so lookups alone keep the counter at or
below max(its current value, 105); the heuristic-update increment of
btr_search_info_update_hash is uncapped. -/
theorem c7_lookup_bump_capped (info : dict_index_ahi) :
    (btr_search_guess_success_info info).n_hash_potential ≤
      max info.n_hash_potential (BTR_SEARCH_BUILD_LIMIT + 5) := by
  simp only [btr_search_guess_success_info, guess_on_hash_potential_bump,
    BTR_SEARCH_BUILD_LIMIT]
  split_ifs <;> omega

/-! ## Claim C5: the per-page build trigger (btr0sea.cc lines 507-559) -/

/-- AHI-related fields of buf_block_t.  index is the owning index
reference, none when the page carries no live hash entries; pointer
identity of dict_index_t objects is modelled by Nat references.  n_recs is
page_get_n_recs(block->page.frame). -/
structure buf_block_t where
  n_hash_helps : Nat
  n_fields : Nat
  n_bytes : Nat
  left_side : Bool
  curr_n_fields : Nat
  curr_n_bytes : Nat
  curr_left_side : Bool
  index : Option Nat
  n_recs : Nat
deriving Repr, DecidableEq

/-- Embedding of btr_search_update_block_hash_info (btr0sea.cc lines
507-559): updates info.last_hash_succ and the block candidate signature and
helpfulness counter, and returns whether building a (new) hash index on the
block is recommended. -/
def btr_search_update_block_hash_info (info : dict_index_ahi)
    (block : buf_block_t) : dict_index_ahi × buf_block_t × Bool :=
  let info := { info with last_hash_succ := false }
  let step :
      dict_index_ahi × buf_block_t :=
    if block.n_hash_helps > 0 ∧ info.n_hash_potential > 0 ∧
        block.n_fields = info.n_fields ∧ block.n_bytes = info.n_bytes ∧
        block.left_side = info.left_side then
      let info :=
        if block.index.isSome ∧ block.curr_n_fields = info.n_fields ∧
            block.curr_n_bytes = info.n_bytes ∧
            block.curr_left_side = info.left_side then
          -- the search would presumably have succeeded using the hash index
          { info with last_hash_succ := true }
        else info
      (info, { block with n_hash_helps := block.n_hash_helps + 1 })
    else
      (info, { block with
        n_hash_helps := 1,
        n_fields := info.n_fields,
        n_bytes := info.n_bytes,
        left_side := info.left_side })
  let info := step.1
  let block := step.2
  if block.n_hash_helps > block.n_recs / BTR_SEARCH_PAGE_BUILD_LIMIT ∧
      info.n_hash_potential ≥ BTR_SEARCH_BUILD_LIMIT then
    if block.index = none ∨ block.n_hash_helps > 2 * block.n_recs ∨
        block.n_fields ≠ block.curr_n_fields ∨
        block.n_bytes ≠ block.curr_n_bytes ∨
        block.left_side ≠ block.curr_left_side then
      -- build a new hash index on the page
      (info, block, true)
    else (info, block, false)
  else (info, block, false)

/-- Claim C5: btr_search_update_block_hash_info recommends building a hash
index for a block exactly when the (updated) helpfulness counter exceeds
the page record count divided by 16 and n_hash_potential is at least 100,
and additionally the block has no hash index, or its built signature
differs from the candidate signature, or the counter exceeds twice the
record count. -/
theorem c5_update_block_hash_info_build_trigger (info : dict_index_ahi)
    (block : buf_block_t) :
    ((btr_search_update_block_hash_info info block).2.2 = true) ↔
      (let b := (btr_search_update_block_hash_info info block).2.1
       b.n_hash_helps > b.n_recs / 16 ∧
       info.n_hash_potential ≥ 100 ∧
       (b.index = none ∨
        (b.n_fields, b.n_bytes, b.left_side) ≠
          (b.curr_n_fields, b.curr_n_bytes, b.curr_left_side) ∨
        b.n_hash_helps > 2 * b.n_recs)) := by
  simp only [btr_search_update_block_hash_info, BTR_SEARCH_PAGE_BUILD_LIMIT,
    BTR_SEARCH_BUILD_LIMIT]
  split_ifs <;> simp_all <;> tauto

/-! ## The AHI partition: hash table and slab (btr0sea.cc lines 52-63,
270-287, 567-776)

Representation choices of the shallow embedding.  A node address is the
pair (slab block position, node slot): the source addresses a node as
block->frame + slot * sizeof(ahi_node), slab blocks only ever gain a node
at the end of the last block or lose their top node, so list positions are
stable identities.  The node heap maps addresses to node contents (496
fold, rec); the singly linked bucket chains become lists of addresses in
traversal order, the next pointers being the list order.  free_offset is
counted in node slots; AHI_NODES_PER_BLOCK is the slot capacity of one
buffer-pool block, srv_page_size / sizeof(ahi_node) rounded as the source
bound free_offset < srv_page_size - sizeof(ahi_node) dictates; its exact
value is irrelevant to the claims.  rec pointers are Nat identities. -/

def AHI_NODES_PER_BLOCK : Nat := 682

/-- Node of the AHI hash table (struct ahi_node, btr0sea.cc lines 52-63).
The next pointer is represented by chain list order. -/
structure ahi_node where
  fold : Nat
  rec_id : Nat
deriving Repr, DecidableEq

/-- Address of a node in the slab: (block position, slot). -/
abbrev ahi_addr := Nat × Nat

/-- Bucket array of hash_table_t: n_cells and one chain per cell. -/
structure hash_table_t where
  n_cells : Nat
  array : List (List ahi_addr)
deriving Repr, DecidableEq

/-- hash_table_t::calc_hash: cell index of a fold. -/
def hash_table_t.calc_hash (t : hash_table_t) (fold : Nat) : Nat :=
  fold % t.n_cells

/-- Chain stored in cell i (empty when out of range). -/
def hash_table_t.cell (t : hash_table_t) (i : Nat) : List ahi_addr :=
  t.array.getD i []

/-- btr_sea::partition: hash table, slab block list (each entry the
free_offset of one block, in slot units) and the spare block flag. -/
structure btr_sea_partition where
  table : hash_table_t
  heap : List (ahi_addr × ahi_node)
  blocks : List Nat
  spare : Bool
deriving Repr, DecidableEq

def heap_get (h : List (ahi_addr × ahi_node)) (a : ahi_addr) :
    Option ahi_node :=
  (h.find? (fun p => p.1 = a)).map (fun p => p.2)

def heap_set (h : List (ahi_addr × ahi_node)) (a : ahi_addr)
    (nd : ahi_node) : List (ahi_addr × ahi_node) :=
  h.map (fun p => if p.1 = a then (a, nd) else p)

def heap_del (h : List (ahi_addr × ahi_node)) (a : ahi_addr) :
    List (ahi_addr × ahi_node) :=
  h.filter (fun p => p.1 ≠ a)

/-- Replace the first occurrence of old by new in a chain (the source
rewrites the unique pointer that referenced the moved node). -/
def chain_replace (xs : List ahi_addr) (a b : ahi_addr) : List ahi_addr :=
  match xs with
  | [] => []
  | x :: rest => if x = a then b :: rest else x :: chain_replace rest a b

/-- Remove the first occurrence of a from a chain (the unlink
*prev = node->next). -/
def chain_unlink (xs : List ahi_addr) (a : ahi_addr) : List ahi_addr :=
  match xs with
  | [] => []
  | x :: rest => if x = a then rest else x :: chain_unlink rest a

/-- Update cell i of the bucket array. -/
def table_set_cell (t : hash_table_t) (i : Nat) (c : List ahi_addr) :
    hash_table_t :=
  { t with array := t.array.set i c }

/-- Embedding of btr_sea::partition::prepare_insert (btr0sea.cc lines
270-287): install a spare block if none is present and the AHI is enabled.
The buffer-pool allocation itself is outside the partition state. -/
def btr_sea_partition.prepare_insert (enabled : Bool)
    (p : btr_sea_partition) : btr_sea_partition :=
  if ¬p.spare ∧ enabled then { p with spare := true } else p

/-- Allocation step of btr_sea::partition::insert (btr0sea.cc lines
601-639): bump-allocate in the last slab block; if it is full (or there is
no block), consume the spare; with no spare, fail (returns none). -/
def btr_sea_partition.alloc_node (p : btr_sea_partition) :
    Option (btr_sea_partition × ahi_addr) :=
  match p.blocks.getLast? with
  | some free_off =>
    if free_off < AHI_NODES_PER_BLOCK then
      some ({ p with blocks := p.blocks.set (p.blocks.length - 1) (free_off + 1) },
        (p.blocks.length - 1, free_off))
    else if p.spare then
      some ({ p with spare := false, blocks := p.blocks ++ [1] },
        (p.blocks.length, 0))
    else none
  | none =>
    if p.spare then
      some ({ p with spare := false, blocks := p.blocks ++ [1] },
        (p.blocks.length, 0))
    else none

/-- Embedding of btr_sea::partition::insert (btr0sea.cc lines 567-659).
If a node with the fold already exists in the bucket, its record pointer is
overwritten; otherwise a node is allocated from the slab and appended to
the bucket chain tail; if no node can be allocated the insert is a silent
no-op. -/
def btr_sea_partition.insert (p : btr_sea_partition) (fold rec_id : Nat) :
    btr_sea_partition :=
  let i := p.table.calc_hash fold
  let chain := p.table.cell i
  match chain.find? (fun a =>
      match heap_get p.heap a with
      | some nd => nd.fold = fold
      | none => false) with
  | some a =>
    match heap_get p.heap a with
    | some nd => { p with heap := heap_set p.heap a { nd with rec_id := rec_id } }
    | none => p
  | none =>
    match p.alloc_node with
    | none => p
    | some (p2, a) =>
      { p2 with
        heap := p2.heap ++ [(a, ⟨fold, rec_id⟩)],
        table := table_set_cell p2.table i (chain ++ [a]) }

/-- Embedding of btr_sea::partition::cleanup_after_erase (btr0sea.cc lines
661-714).  erase is the address of the node just unlinked from its chain.
If it is not the top node of the last slab block, the top node is copied
into the erased slot and the single chain reference to the top (found in
the cell computed from the top node's own fold) is redirected to the erased
slot.  The last block then shrinks by one slot; an emptied block is removed
and becomes the spare (or is returned to the buffer pool if a spare is
already present, which is outside the partition state). -/
def btr_sea_partition.cleanup_after_erase (p : btr_sea_partition)
    (erase : ahi_addr) : btr_sea_partition :=
  match p.blocks.getLast? with
  | none => p
  | some free_off =>
    let lastIdx := p.blocks.length - 1
    let top : ahi_addr := (lastIdx, free_off - 1)
    let p1 :=
      if erase = top then { p with heap := heap_del p.heap top }
      else
        match heap_get p.heap top with
        | none => { p with heap := heap_del p.heap top }
        | some topnd =>
          let j := p.table.calc_hash topnd.fold
          { p with
            heap := heap_set (heap_del p.heap top) erase topnd,
            table := table_set_cell p.table j
              (chain_replace (p.table.cell j) top erase) }
    if free_off - 1 = 0 then
      { p1 with blocks := p1.blocks.dropLast, spare := true }
    else
      { p1 with blocks := p1.blocks.set lastIdx (free_off - 1) }

/-- Embedding of btr_sea::partition::erase (btr0sea.cc lines 750-776): scan
the bucket of the fold for the node whose record pointer is rec_id, unlink
it and compact the slab.  Returns whether a node was erased. -/
def btr_sea_partition.erase (p : btr_sea_partition) (fold rec_id : Nat) :
    btr_sea_partition × Bool :=
  let i := p.table.calc_hash fold
  let chain := p.table.cell i
  match chain.find? (fun a =>
      match heap_get p.heap a with
      | some nd => nd.rec_id = rec_id
      | none => false) with
  | some a =>
    let p1 := { p with table := table_set_cell p.table i (chain_unlink chain a) }
    (p1.cleanup_after_erase a, true)
  | none => (p, false)

/-- Embedding of ha_search_and_update_if_found (btr0sea.cc lines 786-815):
find the node of the fold whose record pointer is data and point it at
new_data. -/
def ha_search_and_update_if_found (enabled : Bool) (p : btr_sea_partition)
    (fold data new_data : Nat) : btr_sea_partition × Bool :=
  if ¬enabled then (p, false)
  else
    let i := p.table.calc_hash fold
    match (p.table.cell i).find? (fun a =>
        match heap_get p.heap a with
        | some nd => nd.rec_id = data
        | none => false) with
    | some a =>
      match heap_get p.heap a with
      | some nd =>
        ({ p with heap := heap_set p.heap a { nd with rec_id := new_data } }, true)
      | none => (p, false)
    | none => (p, false)

/-- One rewind round of ha_remove_all_nodes_to_page (btr0sea.cc lines
721-748): remove the first node of the bucket whose record lies within the
page, compact, and restart; fuel bounds the number of rounds. -/
def ha_remove_all_nodes_to_page_go (fold : Nat) (in_page : Nat → Bool) :
    Nat → btr_sea_partition → btr_sea_partition
  | 0, p => p
  | fuel + 1, p =>
    let i := p.table.calc_hash fold
    let chain := p.table.cell i
    match chain.find? (fun a =>
        match heap_get p.heap a with
        | some nd => in_page nd.rec_id
        | none => false) with
    | some a =>
      let p1 := { p with table := table_set_cell p.table i (chain_unlink chain a) }
      ha_remove_all_nodes_to_page_go fold in_page fuel (p1.cleanup_after_erase a)
    | none => p

/-- Embedding of ha_remove_all_nodes_to_page: every deletion may compact
the heap and move another node, so the bucket walk restarts after each
deletion; the number of live nodes bounds the rounds. -/
def ha_remove_all_nodes_to_page (p : btr_sea_partition) (fold : Nat)
    (in_page : Nat → Bool) : btr_sea_partition :=
  ha_remove_all_nodes_to_page_go fold in_page (p.heap.length + 1) p

/-- Fresh partition as produced by btr_sea::partition::init and alloc
(btr0sea.cc lines 65-71 and 112-115). -/
def btr_sea_partition.create (n_cells : Nat) : btr_sea_partition :=
  ⟨⟨n_cells, List.replicate n_cells []⟩, [], [], false⟩

/-! ## Claim C6: insert without slab space is a no-op; prepare_insert
restores progress -/

/-- Condition under which the allocation path of insert finds no room: the
last slab block is full, or there is no slab block. -/
def slab_last_block_full (p : btr_sea_partition) : Prop :=
  match p.blocks.getLast? with
  | some free_off => ¬free_off < AHI_NODES_PER_BLOCK
  | none => True

instance (p : btr_sea_partition) : Decidable (slab_last_block_full p) := by
  unfold slab_last_block_full
  cases p.blocks.getLast? <;> infer_instance

/-- Condition under which insert must allocate: no node of this fold is in
the bucket chain. -/
def fold_not_in_bucket (p : btr_sea_partition) (fold : Nat) : Prop :=
  (p.table.cell (p.table.calc_hash fold)).find? (fun a =>
      match heap_get p.heap a with
      | some nd => nd.fold = fold
      | none => false) = none

instance (p : btr_sea_partition) (fold : Nat) :
    Decidable (fold_not_in_bucket p fold) := by
  unfold fold_not_in_bucket; infer_instance

/-- Claim C6: when insert(fold, rec) has to allocate (no node of the fold
in the bucket), finds the last slab block full (or no slab block) and the
spare block is null, it returns with the partition state unchanged; and
after prepare_insert has installed a spare, the same insert succeeds by
consuming the spare, starting a fresh slab block whose first slot holds the
new node, appended to the tail of its bucket chain. -/
theorem c6_insert_no_spare_noop_then_prepare_insert_succeeds
    (p : btr_sea_partition) (fold rec_id : Nat)
    (hfold : fold_not_in_bucket p fold)
    (hfull : slab_last_block_full p)
    (hspare : p.spare = false) :
    p.insert fold rec_id = p ∧
    (p.prepare_insert true).insert fold rec_id =
      { table := table_set_cell p.table (p.table.calc_hash fold)
          (p.table.cell (p.table.calc_hash fold) ++ [(p.blocks.length, 0)]),
        heap := p.heap ++ [((p.blocks.length, 0), ⟨fold, rec_id⟩)],
        blocks := p.blocks ++ [1],
        spare := false } := by
  unfold fold_not_in_bucket at hfold
  unfold slab_last_block_full at hfull
  have hp2 : p.prepare_insert true = { p with spare := true } := by
    simp [btr_sea_partition.prepare_insert, hspare]
  constructor
  · simp only [btr_sea_partition.insert, btr_sea_partition.alloc_node]
    rw [hfold]
    rcases hb : p.blocks.getLast? with _ | free_off
    · simp_all
    · rw [hb] at hfull
      simp only [hspare]
      rw [if_neg hfull]
      simp
  · rw [hp2]
    simp only [btr_sea_partition.insert, btr_sea_partition.alloc_node]
    rw [hfold]
    rcases hb : p.blocks.getLast? with _ | free_off
    · simp
    · rw [hb] at hfull
      dsimp only at hfull ⊢
      rw [if_neg hfull]
      simp

/-- Witness for C6 on a concrete one-cell empty partition. -/
theorem c6_insert_no_spare_noop_witness :
    fold_not_in_bucket (btr_sea_partition.create 1) 5 ∧
    slab_last_block_full (btr_sea_partition.create 1) ∧
    (btr_sea_partition.create 1).spare = false ∧
    (btr_sea_partition.create 1).insert 5 7 = btr_sea_partition.create 1 ∧
    ((btr_sea_partition.create 1).prepare_insert true).insert 5 7 =
      ⟨⟨1, [[(0, 0)]]⟩, [((0, 0), ⟨5, 7⟩)], [1], false⟩ := by
  have h := c6_insert_no_spare_noop_then_prepare_insert_succeeds
    (btr_sea_partition.create 1) 5 7 (by decide) (by decide) (by decide)
  exact ⟨by decide, by decide, by decide, h.1, h.2.trans (by decide)⟩

/-! ## Claim C9: the bucket-placement invariant

Helper lemmas on the heap and chain primitives, then a well-formedness
invariant preserved by every partition operation. -/

theorem heap_get_nil (a : ahi_addr) : heap_get [] a = none := rfl

theorem heap_get_cons (q : ahi_addr × ahi_node) (t : List (ahi_addr × ahi_node))
    (a : ahi_addr) :
    heap_get (q :: t) a = if q.1 = a then some q.2 else heap_get t a := by
  simp only [heap_get, List.find?]
  by_cases h : q.1 = a <;> simp [h]

theorem heap_get_set (h : List (ahi_addr × ahi_node)) (a : ahi_addr)
    (nd : ahi_node) (b : ahi_addr) :
    heap_get (heap_set h a nd) b =
      if b = a then (heap_get h a).map (fun _ => nd) else heap_get h b := by
  induction h with
  | nil => simp [heap_get, heap_set]
  | cons q t ih =>
    have hstep : heap_set (q :: t) a nd =
        (if q.1 = a then (a, nd) else q) :: heap_set t a nd := by
      simp [heap_set]
    rw [hstep]
    by_cases hqa : q.1 = a
    · by_cases hba : b = a
      · subst hba
        simp [heap_get_cons, hqa, ih]
      · have hab : ¬a = b := fun hh => hba hh.symm
        simp [heap_get_cons, hqa, hba, hab, ih]
    · by_cases hqb : q.1 = b
      · have hba : ¬b = a := fun hh => hqa (hh ▸ hqb)
        simp [heap_get_cons, hqa, hqb, hba]
      · by_cases hba : b = a
        · subst hba
          simp [heap_get_cons, hqa, hqb, ih]
        · simp [heap_get_cons, hqa, hqb, hba, ih]

theorem heap_get_del (h : List (ahi_addr × ahi_node)) (a b : ahi_addr) :
    heap_get (heap_del h a) b = if b = a then none else heap_get h b := by
  induction h with
  | nil => simp [heap_get, heap_del]
  | cons q t ih =>
    by_cases hqa : q.1 = a
    · have hstep : heap_del (q :: t) a = heap_del t a := by
        simp [heap_del, hqa]
      by_cases hba : b = a
      · subst hba
        simp [hstep, heap_get_cons, ih]
      · have hab : ¬a = b := fun hh => hba hh.symm
        have hqb : ¬q.1 = b := fun hh => hba (hqa.symm.trans hh).symm
        simp [hstep, heap_get_cons, hqa, hba, hab, hqb, ih]
    · have hstep : heap_del (q :: t) a = q :: heap_del t a := by
        simp [heap_del, hqa]
      by_cases hqb : q.1 = b
      · have hba : ¬b = a := fun hh => hqa (hh ▸ hqb)
        simp [hstep, heap_get_cons, hqa, hqb, hba]
      · by_cases hba : b = a
        · subst hba
          simp [hstep, heap_get_cons, hqa, hqb, ih]
        · simp [hstep, heap_get_cons, hqa, hqb, hba, ih]

theorem heap_get_append_left (h h2 : List (ahi_addr × ahi_node))
    (b : ahi_addr) (nd : ahi_node) (hb : heap_get h b = some nd) :
    heap_get (h ++ h2) b = some nd := by
  simp only [heap_get] at hb ⊢
  rcases hf : h.find? (fun p => p.1 = b) with _ | q
  · simp [hf] at hb
  · rw [List.find?_append, hf]
    simpa [hf] using hb

theorem heap_find_none_of_get_none (h : List (ahi_addr × ahi_node))
    (b : ahi_addr) (hb : heap_get h b = none) :
    h.find? (fun p => p.1 = b) = none := by
  simp only [heap_get] at hb
  rcases hf : h.find? (fun p => p.1 = b) with _ | q
  · exact hf
  · rw [hf] at hb
    simp at hb

theorem heap_get_append_single_fresh (h : List (ahi_addr × ahi_node))
    (a : ahi_addr) (nd : ahi_node) (b : ahi_addr)
    (hb : heap_get h b = none) :
    heap_get (h ++ [(a, nd)]) b = if a = b then some nd else none := by
  have hf := heap_find_none_of_get_none h b hb
  simp only [heap_get, List.find?_append, hf]
  by_cases hab : a = b
  · subst hab
    simp [List.find?]
  · simp [List.find?, hab]

theorem chain_unlink_sublist (xs : List ahi_addr) (a : ahi_addr) :
    (chain_unlink xs a).Sublist xs := by
  induction xs with
  | nil => simp [chain_unlink]
  | cons x rest ih =>
    by_cases hx : x = a
    · simp only [chain_unlink, if_pos hx]
      exact (List.sublist_cons_self x rest)
    · simp only [chain_unlink, if_neg hx]
      exact ih.cons₂ x

theorem not_mem_chain_unlink_self (xs : List ahi_addr) (a : ahi_addr)
    (hnd : xs.Nodup) : a ∉ chain_unlink xs a := by
  induction xs with
  | nil => simp [chain_unlink]
  | cons x rest ih =>
    rcases List.nodup_cons.mp hnd with ⟨hx, hrest⟩
    by_cases hxa : x = a
    · simp only [chain_unlink, if_pos hxa]
      subst hxa
      exact hx
    · simp only [chain_unlink, if_neg hxa, List.mem_cons]
      rintro (rfl | hmem)
      · exact hxa rfl
      · exact ih hrest hmem

theorem mem_chain_replace (xs : List ahi_addr) (a b x : ahi_addr)
    (hx : x ∈ chain_replace xs a b) : x = b ∨ x ∈ xs := by
  induction xs with
  | nil => simp [chain_replace] at hx
  | cons y rest ih =>
    by_cases hy : y = a
    · simp only [chain_replace, if_pos hy, List.mem_cons] at hx
      rcases hx with hb | hx
      · exact Or.inl hb
      · exact Or.inr (List.mem_cons_of_mem _ hx)
    · simp only [chain_replace, if_neg hy, List.mem_cons] at hx
      rcases hx with hxy | hx
      · exact Or.inr (hxy ▸ List.mem_cons_self _ _)
      · rcases ih hx with hb | hmem
        · exact Or.inl hb
        · exact Or.inr (List.mem_cons_of_mem _ hmem)

theorem mem_chain_replace_nodup (xs : List ahi_addr) (a b x : ahi_addr)
    (hnd : xs.Nodup) (hx : x ∈ chain_replace xs a b) :
    x = b ∨ (x ∈ xs ∧ x ≠ a) := by
  induction xs with
  | nil => simp [chain_replace] at hx
  | cons y rest ih =>
    rcases List.nodup_cons.mp hnd with ⟨hyr, hrest⟩
    by_cases hy : y = a
    · simp only [chain_replace, if_pos hy, List.mem_cons] at hx
      rcases hx with hb | hx
      · exact Or.inl hb
      · refine Or.inr ⟨List.mem_cons_of_mem _ hx, fun hh => hyr ?_⟩
        rw [hy, ← hh]
        exact hx
    · simp only [chain_replace, if_neg hy, List.mem_cons] at hx
      rcases hx with hxy | hx
      · exact Or.inr ⟨hxy ▸ List.mem_cons_self _ _, hxy ▸ hy⟩
      · rcases ih hrest hx with hb | ⟨hmem, hne⟩
        · exact Or.inl hb
        · exact Or.inr ⟨List.mem_cons_of_mem _ hmem, hne⟩

theorem chain_replace_nodup (xs : List ahi_addr) (a b : ahi_addr)
    (hnd : xs.Nodup) (hb : b ∉ xs) : (chain_replace xs a b).Nodup := by
  induction xs with
  | nil => simp [chain_replace]
  | cons y rest ih =>
    rcases List.nodup_cons.mp hnd with ⟨hyr, hrest⟩
    by_cases hy : y = a
    · simp only [chain_replace, if_pos hy, List.nodup_cons]
      exact ⟨fun hh => hb (List.mem_cons_of_mem _ hh), hrest⟩
    · simp only [chain_replace, if_neg hy, List.nodup_cons]
      refine ⟨fun hh => ?_, ih hrest (fun hh => hb (List.mem_cons_of_mem _ hh))⟩
      rcases mem_chain_replace rest a b y hh with hyb | hmem
      · exact hb (hyb ▸ List.mem_cons_self _ _)
      · exact hyr hmem

theorem cell_table_set_cell_self (t : hash_table_t) (i : Nat)
    (c : List ahi_addr) (hi : i < t.array.length) :
    (table_set_cell t i c).cell i = c := by
  simp [table_set_cell, hash_table_t.cell, List.getD_eq_getElem?_getD,
    List.getElem?_set_self', hi, List.getElem?_eq_getElem]

theorem cell_table_set_cell_ne (t : hash_table_t) (i j : Nat)
    (c : List ahi_addr) (hij : j ≠ i) :
    (table_set_cell t i c).cell j = t.cell j := by
  simp [table_set_cell, hash_table_t.cell, List.getD_eq_getElem?_getD,
    List.getElem?_set_ne (Ne.symm hij)]

theorem table_set_cell_length (t : hash_table_t) (i : Nat)
    (c : List ahi_addr) :
    (table_set_cell t i c).array.length = t.array.length := by
  simp [table_set_cell]

theorem cell_out_of_range (t : hash_table_t) (i : Nat)
    (hi : ¬i < t.array.length) : t.cell i = [] := by
  simp only [hash_table_t.cell, List.getD_eq_getElem?_getD]
  rw [List.getElem?_eq_none (Nat.le_of_not_lt hi)]
  rfl

/-- Well-formedness invariant of a partition, preserved by every operation
and established by create.  chain_sound is the bucket-placement invariant
of claim C9 together with chain validity; the remaining fields are the slab
bookkeeping facts (bounds, density below free_offset, no empty block kept)
that the source maintains and the preservation proofs need. -/
structure partition_wf (p : btr_sea_partition) : Prop where
  len_eq : p.table.array.length = p.table.n_cells
  chain_sound : ∀ i, i < p.table.array.length → ∀ a ∈ p.table.cell i,
    ∃ nd, heap_get p.heap a = some nd ∧ nd.fold % p.table.n_cells = i
  cell_nodup : ∀ i, (p.table.cell i).Nodup
  live : ∀ a : ahi_addr, (heap_get p.heap a).isSome →
    a.1 < p.blocks.length ∧ a.2 < p.blocks.getD a.1 0
  dense : ∀ b s, b < p.blocks.length → s < p.blocks.getD b 0 →
    (heap_get p.heap (b, s)).isSome
  blocks_pos : ∀ n ∈ p.blocks, 0 < n

theorem wf_create (n : Nat) : partition_wf (btr_sea_partition.create n) := by
  constructor
  · simp [btr_sea_partition.create]
  · intro i hi a ha
    simp only [btr_sea_partition.create, hash_table_t.cell,
      List.getD_eq_getElem?_getD] at ha
    rcases Nat.lt_or_ge i n with hin | hin
    · rw [List.getElem?_replicate_of_lt hin] at ha
      simp at ha
    · rw [List.getElem?_eq_none (by simpa using hin)] at ha
      simp at ha
  · intro i
    simp only [btr_sea_partition.create, hash_table_t.cell,
      List.getD_eq_getElem?_getD]
    rcases Nat.lt_or_ge i n with hin | hin
    · rw [List.getElem?_replicate_of_lt hin]
      simp
    · rw [List.getElem?_eq_none (by simpa using hin)]
      simp
  · intro a ha
    simp [btr_sea_partition.create, heap_get] at ha
  · intro b s hb hs
    simp [btr_sea_partition.create] at hb
  · intro n hn
    simp [btr_sea_partition.create] at hn

theorem wf_heap_set_same_fold (p : btr_sea_partition) (a : ahi_addr)
    (nd nd2 : ahi_node) (hwf : partition_wf p)
    (hg : heap_get p.heap a = some nd) (hf : nd2.fold = nd.fold) :
    partition_wf { p with heap := heap_set p.heap a nd2 } := by
  constructor
  · exact hwf.len_eq
  · intro i hi b hb
    rcases hwf.chain_sound i hi b hb with ⟨nd0, hget, hfold⟩
    by_cases hba : b = a
    · subst hba
      refine ⟨nd2, ?_, ?_⟩
      · simp [heap_get_set, hg]
      · rw [hg] at hget
        cases hget
        rw [hf]
        exact hfold
    · exact ⟨nd0, by simp [heap_get_set, hba, hget], hfold⟩
  · exact hwf.cell_nodup
  · intro b hb
    rw [heap_get_set] at hb
    by_cases hba : b = a
    · subst hba
      exact hwf.live b (by simp [hg])
    · rw [if_neg hba] at hb
      exact hwf.live b hb
  · intro b s hb hs
    rw [heap_get_set]
    by_cases hba : (b, s) = a
    · rw [if_pos hba]
      simp [hg]
    · rw [if_neg hba]
      exact hwf.dense b s hb hs
  · exact hwf.blocks_pos

theorem wf_prepare_insert (enabled : Bool) (p : btr_sea_partition)
    (hwf : partition_wf p) : partition_wf (p.prepare_insert enabled) := by
  unfold btr_sea_partition.prepare_insert
  split_ifs
  · exact ⟨hwf.len_eq, hwf.chain_sound, hwf.cell_nodup, hwf.live, hwf.dense,
      hwf.blocks_pos⟩
  · exact hwf

theorem wf_search_and_update (enabled : Bool) (p : btr_sea_partition)
    (fold data new_data : Nat) (hwf : partition_wf p) :
    partition_wf (ha_search_and_update_if_found enabled p fold data new_data).1 := by
  unfold ha_search_and_update_if_found
  split_ifs
  case neg =>
    exact hwf
  case pos =>
    simp only []
    rcases hf : (p.table.cell (p.table.calc_hash fold)).find? (fun a =>
        match heap_get p.heap a with
        | some nd => nd.rec_id = data
        | none => false) with _ | a
    · exact hwf
    · dsimp only
      rcases hg : heap_get p.heap a with _ | nd
      · exact hwf
      · exact wf_heap_set_same_fold p a nd { nd with rec_id := new_data }
          hwf hg rfl

theorem heap_get_append_single_isSome (h : List (ahi_addr × ahi_node))
    (a : ahi_addr) (nd : ahi_node) (b : ahi_addr)
    (hs : (heap_get (h ++ [(a, nd)]) b).isSome) :
    b = a ∨ (heap_get h b).isSome := by
  rcases hb : heap_get h b with _ | x
  · rw [heap_get_append_single_fresh h a nd b hb] at hs
    by_cases hab : a = b
    · exact Or.inl hab.symm
    · rw [if_neg hab] at hs
      simp at hs
  · simp [hb]

theorem getD_set_self (l : List Nat) (i v d : Nat) (h : i < l.length) :
    (l.set i v).getD i d = v := by
  simp [List.getD_eq_getElem?_getD, List.getElem?_set_self', h,
    List.getElem?_eq_getElem]

theorem getD_set_ne (l : List Nat) (i j v d : Nat) (h : j ≠ i) :
    (l.set i v).getD j d = l.getD j d := by
  simp [List.getD_eq_getElem?_getD, List.getElem?_set_ne (Ne.symm h)]

theorem getD_append_left (l1 l2 : List Nat) (i d : Nat) (h : i < l1.length) :
    (l1 ++ l2).getD i d = l1.getD i d := by
  simp [List.getD_eq_getElem?_getD, List.getElem?_append_left h]

theorem getD_append_single (l1 : List Nat) (v d : Nat) :
    (l1 ++ [v]).getD l1.length d = v := by
  simp [List.getD_eq_getElem?_getD,
    List.getElem?_append_right (Nat.le_refl _)]

theorem getD_getLast (l : List Nat) (v d : Nat) (h : l.getLast? = some v) :
    l.getD (l.length - 1) d = v := by
  rw [List.getLast?_eq_getElem? l] at h
  simp [List.getD_eq_getElem?_getD, h]

/-- Facts about a successful slab allocation that the insert preservation
proof needs: the table and heap are untouched, the returned address is
fresh, all bounds carry over, density gains exactly the new address, and
block counters stay positive. -/
def alloc_spec (p p2 : btr_sea_partition) (a : ahi_addr) : Prop :=
  p2.table = p.table ∧ p2.heap = p.heap ∧ heap_get p.heap a = none ∧
  (∀ b : ahi_addr, (heap_get p.heap b).isSome →
    b.1 < p2.blocks.length ∧ b.2 < p2.blocks.getD b.1 0) ∧
  (a.1 < p2.blocks.length ∧ a.2 < p2.blocks.getD a.1 0) ∧
  (∀ b s, b < p2.blocks.length → s < p2.blocks.getD b 0 →
    (b, s) = a ∨ (heap_get p.heap (b, s)).isSome) ∧
  (∀ n ∈ p2.blocks, 0 < n)

theorem wf_alloc_node_spare (p : btr_sea_partition)
    (hwf : partition_wf p) :
    alloc_spec p { p with spare := false, blocks := p.blocks ++ [1] }
      (p.blocks.length, 0) := by
  refine ⟨rfl, rfl, ?_, ?_, ?_, ?_, ?_⟩
  · rcases hg : heap_get p.heap (p.blocks.length, 0) with _ | nd
    · rfl
    · have := (hwf.live (p.blocks.length, 0) (by simp [hg])).1
      simp at this
  · intro b hb
    have hlv := hwf.live b hb
    have h1 : b.1 < (p.blocks ++ [1]).length := by
      simp only [List.length_append, List.length_cons, List.length_nil]
      omega
    refine ⟨h1, ?_⟩
    show b.2 < (p.blocks ++ [1]).getD b.1 0
    rw [getD_append_left _ _ _ _ hlv.1]
    exact hlv.2
  · refine ⟨?_, ?_⟩
    · show p.blocks.length < (p.blocks ++ [1]).length
      simp
    · show 0 < (p.blocks ++ [1]).getD p.blocks.length 0
      rw [getD_append_single]
      omega
  · intro b s hb hs2
    simp only [List.length_append, List.length_cons, List.length_nil] at hb
    rcases Nat.lt_or_ge b p.blocks.length with hbl | hbl
    · rw [show (({ p with spare := false, blocks := p.blocks ++ [1] } :
          btr_sea_partition)).blocks = p.blocks ++ [1] from rfl,
        getD_append_left _ _ _ _ hbl] at hs2
      exact Or.inr (hwf.dense b s hbl hs2)
    · have hbe : b = p.blocks.length := by omega
      subst hbe
      rw [show (({ p with spare := false, blocks := p.blocks ++ [1] } :
          btr_sea_partition)).blocks = p.blocks ++ [1] from rfl,
        getD_append_single] at hs2
      have hs0 : s = 0 := by omega
      subst hs0
      exact Or.inl rfl
  · intro n hn
    rcases List.mem_append.mp hn with hn | hn
    · exact hwf.blocks_pos n hn
    · simp only [List.mem_cons, List.not_mem_nil, or_false] at hn
      omega

theorem wf_alloc_node_bump (p : btr_sea_partition) (free_off : Nat)
    (hwf : partition_wf p) (hlast : p.blocks.getLast? = some free_off) :
    alloc_spec p
      { p with blocks := p.blocks.set (p.blocks.length - 1) (free_off + 1) }
      (p.blocks.length - 1, free_off) := by
  have hne : p.blocks ≠ [] := by
    intro hnil
    rw [hnil] at hlast
    simp at hlast
  have hlen : 0 < p.blocks.length := List.length_pos.mpr hne
  have hgl : p.blocks.getD (p.blocks.length - 1) 0 = free_off :=
    getD_getLast p.blocks free_off 0 hlast
  refine ⟨rfl, rfl, ?_, ?_, ?_, ?_, ?_⟩
  · rcases hg : heap_get p.heap (p.blocks.length - 1, free_off) with _ | nd
    · rfl
    · have hlv := (hwf.live (p.blocks.length - 1, free_off) (by simp [hg])).2
      simp only [hgl] at hlv
      omega
  · intro b hb
    have hlv := hwf.live b hb
    have h1 : b.1 < (p.blocks.set (p.blocks.length - 1) (free_off + 1)).length := by
      simp only [List.length_set]
      exact hlv.1
    refine ⟨h1, ?_⟩
    show b.2 < (p.blocks.set (p.blocks.length - 1) (free_off + 1)).getD b.1 0
    by_cases hbe : b.1 = p.blocks.length - 1
    · rw [hbe, getD_set_self _ _ _ _ (by omega)]
      rw [hbe, hgl] at hlv
      omega
    · rw [getD_set_ne _ _ _ _ _ hbe]
      exact hlv.2
  · refine ⟨?_, ?_⟩
    · show p.blocks.length - 1 <
        (p.blocks.set (p.blocks.length - 1) (free_off + 1)).length
      simp only [List.length_set]
      omega
    · show free_off <
        (p.blocks.set (p.blocks.length - 1) (free_off + 1)).getD
          (p.blocks.length - 1) 0
      rw [getD_set_self _ _ _ _ (by omega)]
      omega
  · intro b s hb hs2
    simp only [List.length_set] at hb
    by_cases hbe : b = p.blocks.length - 1
    · subst hbe
      rw [show (({ p with
          blocks := p.blocks.set (p.blocks.length - 1) (free_off + 1) } :
          btr_sea_partition)).blocks =
          p.blocks.set (p.blocks.length - 1) (free_off + 1) from rfl,
        getD_set_self _ _ _ _ (by omega)] at hs2
      rcases Nat.lt_or_ge s free_off with hsf | hsf
      · refine Or.inr (hwf.dense _ s (by omega) ?_)
        rw [hgl]
        exact hsf
      · have hse : s = free_off := by omega
        subst hse
        exact Or.inl rfl
    · rw [show (({ p with
          blocks := p.blocks.set (p.blocks.length - 1) (free_off + 1) } :
          btr_sea_partition)).blocks =
          p.blocks.set (p.blocks.length - 1) (free_off + 1) from rfl,
        getD_set_ne _ _ _ _ _ hbe] at hs2
      exact Or.inr (hwf.dense b s hb hs2)
  · intro n hn
    rcases List.mem_or_eq_of_mem_set hn with hn | hn
    · exact hwf.blocks_pos n hn
    · omega

theorem wf_alloc_node (p p2 : btr_sea_partition) (a : ahi_addr)
    (hwf : partition_wf p) (h : p.alloc_node = some (p2, a)) :
    alloc_spec p p2 a := by
  unfold btr_sea_partition.alloc_node at h
  rcases hlast : p.blocks.getLast? with _ | free_off <;> rw [hlast] at h
  · dsimp only at h
    split_ifs at h
    rw [Option.some.injEq, Prod.mk.injEq] at h
    obtain ⟨rfl, rfl⟩ := h
    exact wf_alloc_node_spare p hwf
  · dsimp only at h
    split_ifs at h with hroom hsp
    · rw [Option.some.injEq, Prod.mk.injEq] at h
      obtain ⟨rfl, rfl⟩ := h
      exact wf_alloc_node_bump p free_off hwf hlast
    · rw [Option.some.injEq, Prod.mk.injEq] at h
      obtain ⟨rfl, rfl⟩ := h
      exact wf_alloc_node_spare p hwf

theorem wf_insert (p : btr_sea_partition) (fold rec_id : Nat)
    (hwf : partition_wf p) : partition_wf (p.insert fold rec_id) := by
  unfold btr_sea_partition.insert
  simp only []
  rcases hf : (p.table.cell (p.table.calc_hash fold)).find? (fun a =>
      match heap_get p.heap a with
      | some nd => nd.fold = fold
      | none => false) with _ | a
  · dsimp only
    rcases hal : p.alloc_node with _ | pa
    · exact hwf
    · rcases pa with ⟨p2, a⟩
      dsimp only
      obtain ⟨ht, hh, hfresh, hlive, habound, hdense, hpos⟩ :=
        wf_alloc_node p p2 a hwf hal
      constructor
      · rw [table_set_cell_length, ht, hwf.len_eq]
        rfl
      · intro j hj b hb
        rw [table_set_cell_length, ht] at hj
        by_cases hji : j = p.table.calc_hash fold
        · subst hji
          rw [ht, cell_table_set_cell_self _ _ _ hj] at hb
          rcases List.mem_append.mp hb with hbc | hba
          · rcases hwf.chain_sound _ hj b hbc with ⟨nd0, hget, hfold⟩
            refine ⟨nd0, ?_, by rw [ht]; exact hfold⟩
            rw [hh]
            exact heap_get_append_left _ _ _ _ hget
          · simp only [List.mem_singleton] at hba
            subst hba
            refine ⟨⟨fold, rec_id⟩, ?_, ?_⟩
            · rw [hh, heap_get_append_single_fresh _ _ _ _ hfresh, if_pos rfl]
            · rw [ht]
              rfl
        · rw [ht, cell_table_set_cell_ne _ _ _ _ hji] at hb
          rcases hwf.chain_sound _ hj b hb with ⟨nd0, hget, hfold⟩
          refine ⟨nd0, ?_, by rw [ht]; exact hfold⟩
          rw [hh]
          exact heap_get_append_left _ _ _ _ hget
      · intro j
        by_cases hji : j = p.table.calc_hash fold
        · subst hji
          by_cases hj : p.table.calc_hash fold < p.table.array.length
          · rw [ht, cell_table_set_cell_self _ _ _ hj]
            refine List.Nodup.append (hwf.cell_nodup _) (by simp) ?_
            intro b hbc hba
            simp only [List.mem_singleton] at hba
            subst hba
            rcases hwf.chain_sound _ hj b hbc with ⟨nd0, hget, hfold⟩
            rw [hfresh] at hget
            cases hget
          · rw [ht]
            unfold table_set_cell hash_table_t.cell
            rw [List.set_eq_of_length_le (Nat.le_of_not_lt hj)]
            exact hwf.cell_nodup _
        · rw [ht, cell_table_set_cell_ne _ _ _ _ hji]
          exact hwf.cell_nodup _
      · intro b hb
        rw [hh] at hb
        rcases heap_get_append_single_isSome _ _ _ _ hb with hba | hbs
        · subst hba
          exact habound
        · exact hlive b hbs
      · intro b s hb hs
        rcases hdense b s hb hs with hba | hbs
        · rw [hba, hh, heap_get_append_single_fresh _ _ _ _ hfresh, if_pos rfl]
          rfl
        · rw [hh]
          rcases hg : heap_get p.heap (b, s) with _ | nd
          · rw [hg] at hbs
            cases hbs
          · rw [heap_get_append_left _ _ _ _ hg]
            rfl
      · exact hpos
  · dsimp only
    rcases hg : heap_get p.heap a with _ | nd
    · exact hwf
    · exact wf_heap_set_same_fold p a nd { nd with rec_id := rec_id } hwf hg rfl

/-- Shrinking step at the end of cleanup_after_erase: the last slab block
loses its top slot; an emptied block is removed and becomes the spare.
Stated over an intermediate state p1 whose heap no longer contains the top
address. -/
theorem wf_shrink (p1 : btr_sea_partition) (free_off : Nat)
    (hblocks : p1.blocks.getLast? = some free_off)
    (hlen_eq : p1.table.array.length = p1.table.n_cells)
    (hsound : ∀ i, i < p1.table.array.length → ∀ a ∈ p1.table.cell i,
      ∃ nd, heap_get p1.heap a = some nd ∧ nd.fold % p1.table.n_cells = i)
    (hnodup : ∀ i, (p1.table.cell i).Nodup)
    (hlive : ∀ b : ahi_addr, (heap_get p1.heap b).isSome →
      b ≠ (p1.blocks.length - 1, free_off - 1) ∧
      b.1 < p1.blocks.length ∧ b.2 < p1.blocks.getD b.1 0)
    (hdense : ∀ b s, b < p1.blocks.length → s < p1.blocks.getD b 0 →
      (b, s) = (p1.blocks.length - 1, free_off - 1) ∨
      (heap_get p1.heap (b, s)).isSome)
    (hpos : ∀ n ∈ p1.blocks, 0 < n) :
    partition_wf (if free_off - 1 = 0 then
      { p1 with blocks := p1.blocks.dropLast, spare := true }
    else
      { p1 with blocks := p1.blocks.set (p1.blocks.length - 1) (free_off - 1) }) := by
  have hne : p1.blocks ≠ [] := by
    intro hnil
    rw [hnil] at hblocks
    simp at hblocks
  have hlen0 : 0 < p1.blocks.length := List.length_pos.mpr hne
  have hgl : p1.blocks.getD (p1.blocks.length - 1) 0 = free_off :=
    getD_getLast p1.blocks free_off 0 hblocks
  have hfpos : 0 < free_off :=
    hpos free_off (List.mem_of_mem_getLast? hblocks)
  split_ifs with hz
  · -- the block is emptied: drop it from the list
    constructor
    · exact hlen_eq
    · intro i hi a ha
      exact hsound i hi a ha
    · exact hnodup
    · intro b hb
      obtain ⟨hbt, hb1, hb2⟩ := hlive b hb
      have hb1d : b.1 < p1.blocks.length - 1 := by
        rcases Nat.lt_or_ge b.1 (p1.blocks.length - 1) with hl | hg
        · exact hl
        · exfalso
          have hbe : b.1 = p1.blocks.length - 1 := by omega
          rw [hbe, hgl] at hb2
          apply hbt
          have hb20 : b.2 = free_off - 1 := by omega
          rw [← hbe, ← hb20]
      constructor
      · show b.1 < p1.blocks.dropLast.length
        rw [List.length_dropLast]
        exact hb1d
      · show b.2 < p1.blocks.dropLast.getD b.1 0
        rw [List.getD_eq_getElem?_getD, List.getElem?_dropLast,
          if_pos hb1d, ← List.getD_eq_getElem?_getD]
        exact hb2
    · intro b s hb hs
      rw [show ({ p1 with blocks := p1.blocks.dropLast, spare := true } :
          btr_sea_partition).blocks = p1.blocks.dropLast from rfl,
        List.length_dropLast] at hb
      rw [show ({ p1 with blocks := p1.blocks.dropLast, spare := true } :
          btr_sea_partition).blocks = p1.blocks.dropLast from rfl,
        List.getD_eq_getElem?_getD, List.getElem?_dropLast, if_pos hb,
        ← List.getD_eq_getElem?_getD] at hs
      rcases hdense b s (by omega) hs with htp | hsm
      · exfalso
        have : b = p1.blocks.length - 1 := congrArg Prod.fst htp
        omega
      · exact hsm
    · intro n hn
      exact hpos n ((List.dropLast_sublist p1.blocks).subset hn)
  · -- the block keeps at least one node: lower its free offset
    constructor
    · exact hlen_eq
    · intro i hi a ha
      exact hsound i hi a ha
    · exact hnodup
    · intro b hb
      obtain ⟨hbt, hb1, hb2⟩ := hlive b hb
      constructor
      · show b.1 < (p1.blocks.set (p1.blocks.length - 1) (free_off - 1)).length
        rw [List.length_set]
        exact hb1
      · show b.2 < (p1.blocks.set (p1.blocks.length - 1) (free_off - 1)).getD b.1 0
        by_cases hbe : b.1 = p1.blocks.length - 1
        · rw [hbe, getD_set_self _ _ _ _ (by omega)]
          rw [hbe, hgl] at hb2
          have hb2ne : b.2 ≠ free_off - 1 := by
            intro hh
            apply hbt
            rw [← hbe, ← hh]
          omega
        · rw [getD_set_ne _ _ _ _ _ hbe]
          exact hb2
    · intro b s hb hs
      rw [show ({ p1 with
          blocks := p1.blocks.set (p1.blocks.length - 1) (free_off - 1) } :
          btr_sea_partition).blocks =
          p1.blocks.set (p1.blocks.length - 1) (free_off - 1) from rfl,
        List.length_set] at hb
      by_cases hbe : b = p1.blocks.length - 1
      · rw [show ({ p1 with
            blocks := p1.blocks.set (p1.blocks.length - 1) (free_off - 1) } :
            btr_sea_partition).blocks =
            p1.blocks.set (p1.blocks.length - 1) (free_off - 1) from rfl,
          hbe, getD_set_self _ _ _ _ (by omega)] at hs
        rcases hdense b s hb (by rw [hbe, hgl]; omega) with htp | hsm
        · exfalso
          have : s = free_off - 1 := congrArg Prod.snd htp
          omega
        · exact hsm
      · rw [show ({ p1 with
            blocks := p1.blocks.set (p1.blocks.length - 1) (free_off - 1) } :
            btr_sea_partition).blocks =
            p1.blocks.set (p1.blocks.length - 1) (free_off - 1) from rfl,
          getD_set_ne _ _ _ _ _ hbe] at hs
        rcases hdense b s hb hs with htp | hsm
        · exfalso
          exact hbe (congrArg Prod.fst htp)
        · exact hsm
    · intro n hn
      rcases List.mem_or_eq_of_mem_set hn with hn | hn
      · exact hpos n hn
      · omega

/-- cleanup_after_erase preserves well-formedness when the erased address
is an allocated node that no bucket chain references any more (the state
right after the unlink in erase or remove_all_nodes). -/
theorem wf_cleanup (p : btr_sea_partition) (erase : ahi_addr)
    (hwf : partition_wf p)
    (hmem : (heap_get p.heap erase).isSome)
    (hnochain : ∀ j, erase ∉ p.table.cell j) :
    partition_wf (p.cleanup_after_erase erase) := by
  unfold btr_sea_partition.cleanup_after_erase
  rcases hlast : p.blocks.getLast? with _ | free_off
  · exact hwf
  · dsimp only
    by_cases het : erase = ((p.blocks.length - 1, free_off - 1) : ahi_addr)
    · rw [if_pos het]
      refine wf_shrink _ free_off hlast hwf.len_eq ?_ hwf.cell_nodup ?_ ?_
        hwf.blocks_pos
      · intro i hi a ha
        rcases hwf.chain_sound i hi a ha with ⟨nd, hget, hfold⟩
        refine ⟨nd, ?_, hfold⟩
        show heap_get (heap_del p.heap (p.blocks.length - 1, free_off - 1)) a =
          some nd
        rw [heap_get_del]
        rw [if_neg (fun hh : a = ((p.blocks.length - 1, free_off - 1) : ahi_addr)
          => hnochain i ((hh.trans het.symm) ▸ ha))]
        exact hget
      · intro b hb
        rw [show ({ p with
            heap := heap_del p.heap (p.blocks.length - 1, free_off - 1) } :
            btr_sea_partition).heap =
            heap_del p.heap (p.blocks.length - 1, free_off - 1) from rfl,
          heap_get_del] at hb
        by_cases hbt : b = ((p.blocks.length - 1, free_off - 1) : ahi_addr)
        · rw [if_pos hbt] at hb
          cases hb
        · rw [if_neg hbt] at hb
          exact ⟨hbt, (hwf.live b hb).1, (hwf.live b hb).2⟩
      · intro b s hb hs
        by_cases hbt : ((b, s) : ahi_addr) = (p.blocks.length - 1, free_off - 1)
        · exact Or.inl hbt
        · refine Or.inr ?_
          show (heap_get (heap_del p.heap (p.blocks.length - 1, free_off - 1))
            (b, s)).isSome = true
          rw [heap_get_del, if_neg hbt]
          exact hwf.dense b s hb hs
    · rw [if_neg het]
      rcases htop : heap_get p.heap ((p.blocks.length - 1, free_off - 1) :
          ahi_addr) with _ | topnd
      · -- unreachable for dense slabs, but the embedding is total
        refine wf_shrink _ free_off hlast hwf.len_eq ?_ hwf.cell_nodup ?_ ?_
          hwf.blocks_pos
        · intro i hi a ha
          rcases hwf.chain_sound i hi a ha with ⟨nd, hget, hfold⟩
          refine ⟨nd, ?_, hfold⟩
          show heap_get (heap_del p.heap (p.blocks.length - 1, free_off - 1)) a =
            some nd
          rw [heap_get_del]
          rw [if_neg (fun hh : a = ((p.blocks.length - 1, free_off - 1) : ahi_addr)
            => by
              rw [hh, htop] at hget
              cases hget)]
          exact hget
        · intro b hb
          rw [show ({ p with
              heap := heap_del p.heap (p.blocks.length - 1, free_off - 1) } :
              btr_sea_partition).heap =
              heap_del p.heap (p.blocks.length - 1, free_off - 1) from rfl,
            heap_get_del] at hb
          by_cases hbt : b = ((p.blocks.length - 1, free_off - 1) : ahi_addr)
          · rw [if_pos hbt] at hb
            cases hb
          · rw [if_neg hbt] at hb
            exact ⟨hbt, (hwf.live b hb).1, (hwf.live b hb).2⟩
        · intro b s hb hs
          by_cases hbt : ((b, s) : ahi_addr) = (p.blocks.length - 1, free_off - 1)
          · exact Or.inl hbt
          · refine Or.inr ?_
            show (heap_get (heap_del p.heap (p.blocks.length - 1, free_off - 1))
              (b, s)).isSome = true
            rw [heap_get_del, if_neg hbt]
            exact hwf.dense b s hb hs
      · -- move the top node into the erased slot and relink its bucket
        dsimp only
        refine wf_shrink { p with
            heap := heap_set (heap_del p.heap (p.blocks.length - 1,
              free_off - 1)) erase topnd,
            table := table_set_cell p.table (p.table.calc_hash topnd.fold)
              (chain_replace (p.table.cell (p.table.calc_hash topnd.fold))
                (p.blocks.length - 1, free_off - 1) erase) }
          free_off hlast ?_ ?_ ?_ ?_ ?_ hwf.blocks_pos
        · rw [show ({ p with
              heap := heap_set (heap_del p.heap (p.blocks.length - 1,
                free_off - 1)) erase topnd,
              table := table_set_cell p.table (p.table.calc_hash topnd.fold)
                (chain_replace (p.table.cell (p.table.calc_hash topnd.fold))
                  (p.blocks.length - 1, free_off - 1) erase) } :
              btr_sea_partition).table =
              table_set_cell p.table (p.table.calc_hash topnd.fold)
                (chain_replace (p.table.cell (p.table.calc_hash topnd.fold))
                  (p.blocks.length - 1, free_off - 1) erase) from rfl,
            table_set_cell_length]
          exact hwf.len_eq
        · -- chain soundness after the relink
          intro i hi a ha
          rw [show ({ p with
              heap := heap_set (heap_del p.heap (p.blocks.length - 1,
                free_off - 1)) erase topnd,
              table := table_set_cell p.table (p.table.calc_hash topnd.fold)
                (chain_replace (p.table.cell (p.table.calc_hash topnd.fold))
                  (p.blocks.length - 1, free_off - 1) erase) } :
              btr_sea_partition).table =
              table_set_cell p.table (p.table.calc_hash topnd.fold)
                (chain_replace (p.table.cell (p.table.calc_hash topnd.fold))
                  (p.blocks.length - 1, free_off - 1) erase) from rfl,
            table_set_cell_length] at hi
          by_cases hij : i = p.table.calc_hash topnd.fold
          · subst hij
            rw [show ({ p with
                heap := heap_set (heap_del p.heap (p.blocks.length - 1,
                  free_off - 1)) erase topnd,
                table := table_set_cell p.table
                  (p.table.calc_hash topnd.fold)
                  (chain_replace (p.table.cell (p.table.calc_hash topnd.fold))
                    (p.blocks.length - 1, free_off - 1) erase) } :
                btr_sea_partition).table.cell (p.table.calc_hash topnd.fold) =
                (table_set_cell p.table (p.table.calc_hash topnd.fold)
                  (chain_replace (p.table.cell (p.table.calc_hash topnd.fold))
                    (p.blocks.length - 1, free_off - 1) erase)).cell
                  (p.table.calc_hash topnd.fold) from rfl,
              cell_table_set_cell_self _ _ _ hi] at ha
            rcases mem_chain_replace_nodup _ _ _ _
                (hwf.cell_nodup (p.table.calc_hash topnd.fold)) ha with
                hae | ⟨hac, hat⟩
            · subst hae
              refine ⟨topnd, ?_, rfl⟩
              show heap_get (heap_set (heap_del p.heap (p.blocks.length - 1,
                free_off - 1)) a topnd) a = some topnd
              rw [heap_get_set, if_pos rfl, heap_get_del, if_neg het]
              rcases hge : heap_get p.heap a with _ | x
              · rw [hge] at hmem
                cases hmem
              · rfl
            · rcases hwf.chain_sound _ hi a hac with ⟨nd, hget, hfold⟩
              refine ⟨nd, ?_, hfold⟩
              show heap_get (heap_set (heap_del p.heap (p.blocks.length - 1,
                free_off - 1)) erase topnd) a = some nd
              rw [heap_get_set,
                if_neg (fun hh => hnochain _ (hh ▸ hac)),
                heap_get_del, if_neg hat]
              exact hget
          · rw [show ({ p with
                heap := heap_set (heap_del p.heap (p.blocks.length - 1,
                  free_off - 1)) erase topnd,
                table := table_set_cell p.table
                  (p.table.calc_hash topnd.fold)
                  (chain_replace (p.table.cell (p.table.calc_hash topnd.fold))
                    (p.blocks.length - 1, free_off - 1) erase) } :
                btr_sea_partition).table.cell i =
                (table_set_cell p.table (p.table.calc_hash topnd.fold)
                  (chain_replace (p.table.cell (p.table.calc_hash topnd.fold))
                    (p.blocks.length - 1, free_off - 1) erase)).cell i
                from rfl,
              cell_table_set_cell_ne _ _ _ _ hij] at ha
            rcases hwf.chain_sound _ hi a ha with ⟨nd, hget, hfold⟩
            have hat : a ≠ ((p.blocks.length - 1, free_off - 1) : ahi_addr) := by
              intro hh
              rw [hh, htop] at hget
              cases hget
              exact hij hfold.symm
            refine ⟨nd, ?_, hfold⟩
            show heap_get (heap_set (heap_del p.heap (p.blocks.length - 1,
              free_off - 1)) erase topnd) a = some nd
            rw [heap_get_set,
              if_neg (fun hh => hnochain _ (hh ▸ ha)),
              heap_get_del, if_neg hat]
            exact hget
        · -- per-cell nodup after the relink
          intro i
          by_cases hij : i = p.table.calc_hash topnd.fold
          · subst hij
            by_cases hj : p.table.calc_hash topnd.fold < p.table.array.length
            · rw [show ({ p with
                  heap := heap_set (heap_del p.heap (p.blocks.length - 1,
                    free_off - 1)) erase topnd,
                  table := table_set_cell p.table
                    (p.table.calc_hash topnd.fold)
                    (chain_replace
                      (p.table.cell (p.table.calc_hash topnd.fold))
                      (p.blocks.length - 1, free_off - 1) erase) } :
                  btr_sea_partition).table.cell (p.table.calc_hash topnd.fold) =
                  (table_set_cell p.table (p.table.calc_hash topnd.fold)
                    (chain_replace
                      (p.table.cell (p.table.calc_hash topnd.fold))
                      (p.blocks.length - 1, free_off - 1) erase)).cell
                    (p.table.calc_hash topnd.fold) from rfl,
                cell_table_set_cell_self _ _ _ hj]
              exact chain_replace_nodup _ _ _
                (hwf.cell_nodup _) (hnochain _)
            · show ((table_set_cell p.table (p.table.calc_hash topnd.fold)
                (chain_replace (p.table.cell (p.table.calc_hash topnd.fold))
                  (p.blocks.length - 1, free_off - 1) erase)).cell
                (p.table.calc_hash topnd.fold)).Nodup
              unfold table_set_cell hash_table_t.cell
              rw [List.set_eq_of_length_le (Nat.le_of_not_lt hj)]
              exact hwf.cell_nodup _
          · show ((table_set_cell p.table (p.table.calc_hash topnd.fold)
              (chain_replace (p.table.cell (p.table.calc_hash topnd.fold))
                (p.blocks.length - 1, free_off - 1) erase)).cell i).Nodup
            rw [cell_table_set_cell_ne _ _ _ _ hij]
            exact hwf.cell_nodup i
        · -- liveness after the move
          intro b hb
          rw [show ({ p with
              heap := heap_set (heap_del p.heap (p.blocks.length - 1,
                free_off - 1)) erase topnd,
              table := table_set_cell p.table (p.table.calc_hash topnd.fold)
                (chain_replace (p.table.cell (p.table.calc_hash topnd.fold))
                  (p.blocks.length - 1, free_off - 1) erase) } :
              btr_sea_partition).heap =
              heap_set (heap_del p.heap (p.blocks.length - 1, free_off - 1))
                erase topnd from rfl,
            heap_get_set] at hb
          by_cases hbe : b = erase
          · rw [if_pos hbe] at hb
            refine ⟨hbe ▸ het, ?_⟩
            exact hbe ▸ hwf.live erase hmem
          · rw [if_neg hbe, heap_get_del] at hb
            by_cases hbt : b = ((p.blocks.length - 1, free_off - 1) : ahi_addr)
            · rw [if_pos hbt] at hb
              cases hb
            · rw [if_neg hbt] at hb
              exact ⟨hbt, hwf.live b hb⟩
        · -- density after the move
          intro b s hb hs
          by_cases hbt : ((b, s) : ahi_addr) = (p.blocks.length - 1, free_off - 1)
          · exact Or.inl hbt
          · refine Or.inr ?_
            show (heap_get (heap_set (heap_del p.heap (p.blocks.length - 1,
              free_off - 1)) erase topnd) (b, s)).isSome = true
            rw [heap_get_set]
            by_cases hbe : ((b, s) : ahi_addr) = erase
            · rw [if_pos hbe, heap_get_del, if_neg het]
              rcases hge : heap_get p.heap erase with _ | x
              · rw [hge] at hmem
                cases hmem
              · rfl
            · rw [if_neg hbe, heap_get_del, if_neg hbt]
              exact hwf.dense b s hb hs

/-- State of the partition right after erase (or one round of
remove_all_nodes) has unlinked address a from the bucket chain of cell i
(*prev = node->next) and before the slab compaction. -/
def partition_unlink (p : btr_sea_partition) (i : Nat) (a : ahi_addr) :
    btr_sea_partition :=
  { p with table := table_set_cell p.table i (chain_unlink (p.table.cell i) a) }

/-- Unlinking a chain member and compacting preserves well-formedness; this
is the shared shape of erase and of one round of remove_all_nodes. -/
theorem wf_unlink_cleanup (p : btr_sea_partition) (i : Nat) (a : ahi_addr)
    (hwf : partition_wf p)
    (ha : a ∈ p.table.cell i)
    (hget : (heap_get p.heap a).isSome) :
    partition_wf ((partition_unlink p i a).cleanup_after_erase a) := by
  have hi : i < p.table.array.length := by
    by_contra hni
    rw [cell_out_of_range p.table i hni] at ha
    cases ha
  have huniq : ∀ j, j ≠ i → a ∉ p.table.cell j := by
    intro j hj haj
    by_cases hjl : j < p.table.array.length
    · rcases hwf.chain_sound i hi a ha with ⟨nd, hget1, hfold1⟩
      rcases hwf.chain_sound j hjl a haj with ⟨nd2, hget2, hfold2⟩
      rw [hget1] at hget2
      cases hget2
      exact hj (hfold2.symm.trans hfold1)
    · rw [cell_out_of_range p.table j hjl] at haj
      cases haj
  have hcell_self : (partition_unlink p i a).table.cell i =
      chain_unlink (p.table.cell i) a := by
    show (table_set_cell p.table i (chain_unlink (p.table.cell i) a)).cell i = _
    exact cell_table_set_cell_self _ _ _ hi
  have hcell_ne : ∀ j, j ≠ i →
      (partition_unlink p i a).table.cell j = p.table.cell j := by
    intro j hj
    show (table_set_cell p.table i (chain_unlink (p.table.cell i) a)).cell j = _
    exact cell_table_set_cell_ne _ _ _ _ hj
  have hwf1 : partition_wf (partition_unlink p i a) := by
    constructor
    · show (table_set_cell p.table i
        (chain_unlink (p.table.cell i) a)).array.length = p.table.n_cells
      rw [table_set_cell_length]
      exact hwf.len_eq
    · intro j hj b hb
      rw [show (partition_unlink p i a).table.array.length =
          (table_set_cell p.table i
            (chain_unlink (p.table.cell i) a)).array.length from rfl,
        table_set_cell_length] at hj
      by_cases hji : j = i
      · subst hji
        rw [hcell_self] at hb
        exact hwf.chain_sound j hj b
          ((chain_unlink_sublist (p.table.cell j) a).subset hb)
      · rw [hcell_ne j hji] at hb
        exact hwf.chain_sound j hj b hb
    · intro j
      by_cases hji : j = i
      · subst hji
        rw [hcell_self]
        exact (chain_unlink_sublist (p.table.cell j) a).nodup (hwf.cell_nodup j)
      · rw [hcell_ne j hji]
        exact hwf.cell_nodup j
    · exact hwf.live
    · exact hwf.dense
    · exact hwf.blocks_pos
  refine wf_cleanup _ a hwf1 hget ?_
  intro j
  by_cases hji : j = i
  · subst hji
    rw [hcell_self]
    exact not_mem_chain_unlink_self _ _ (hwf.cell_nodup j)
  · rw [hcell_ne j hji]
    exact huniq j hji

theorem wf_erase (p : btr_sea_partition) (fold rec_id : Nat)
    (hwf : partition_wf p) : partition_wf (p.erase fold rec_id).1 := by
  unfold btr_sea_partition.erase
  simp only []
  rcases hf : (p.table.cell (p.table.calc_hash fold)).find? (fun a =>
      match heap_get p.heap a with
      | some nd => nd.rec_id = rec_id
      | none => false) with _ | a
  · exact hwf
  · dsimp only
    have hmem : a ∈ p.table.cell (p.table.calc_hash fold) :=
      List.mem_of_find?_eq_some hf
    have hpred := List.find?_some hf
    have hsome : (heap_get p.heap a).isSome := by
      rcases hg : heap_get p.heap a with _ | nd
      · rw [hg] at hpred
        simp at hpred
      · simp
    exact wf_unlink_cleanup p (p.table.calc_hash fold) a hwf hmem hsome

theorem wf_remove_all_go (fold : Nat) (in_page : Nat → Bool) (fuel : Nat)
    (p : btr_sea_partition) (hwf : partition_wf p) :
    partition_wf (ha_remove_all_nodes_to_page_go fold in_page fuel p) := by
  induction fuel generalizing p with
  | zero => exact hwf
  | succ n ih =>
    unfold ha_remove_all_nodes_to_page_go
    simp only []
    rcases hf : (p.table.cell (p.table.calc_hash fold)).find? (fun a =>
        match heap_get p.heap a with
        | some nd => in_page nd.rec_id
        | none => false) with _ | a
    · exact hwf
    · dsimp only
      have hmem : a ∈ p.table.cell (p.table.calc_hash fold) :=
        List.mem_of_find?_eq_some hf
      have hpred := List.find?_some hf
      have hsome : (heap_get p.heap a).isSome := by
        rcases hg : heap_get p.heap a with _ | nd
        · rw [hg] at hpred
          simp at hpred
        · simp
      exact ih _ (wf_unlink_cleanup p (p.table.calc_hash fold) a hwf hmem hsome)

theorem wf_remove_all (p : btr_sea_partition) (fold : Nat)
    (in_page : Nat → Bool) (hwf : partition_wf p) :
    partition_wf (ha_remove_all_nodes_to_page p fold in_page) :=
  wf_remove_all_go fold in_page (p.heap.length + 1) p hwf

/-- States of one AHI partition reachable through its interface: creation,
insert, erase, prepare_insert, the in-place record update and the page-wide
removal used by drop_page_hash_index. -/
inductive partition_reachable : btr_sea_partition → Prop where
  | create (n : Nat) : partition_reachable (btr_sea_partition.create n)
  | insert (fold rec_id : Nat) {p : btr_sea_partition} :
      partition_reachable p → partition_reachable (p.insert fold rec_id)
  | erase (fold rec_id : Nat) {p : btr_sea_partition} :
      partition_reachable p → partition_reachable (p.erase fold rec_id).1
  | prepare (enabled : Bool) {p : btr_sea_partition} :
      partition_reachable p → partition_reachable (p.prepare_insert enabled)
  | update (enabled : Bool) (fold data new_data : Nat) {p : btr_sea_partition} :
      partition_reachable p →
      partition_reachable
        (ha_search_and_update_if_found enabled p fold data new_data).1
  | remove_all (fold : Nat) (in_page : Nat → Bool) {p : btr_sea_partition} :
      partition_reachable p →
      partition_reachable (ha_remove_all_nodes_to_page p fold in_page)

theorem wf_of_reachable (p : btr_sea_partition)
    (h : partition_reachable p) : partition_wf p := by
  induction h with
  | create n => exact wf_create n
  | insert fold rec_id _ ih => exact wf_insert _ fold rec_id ih
  | erase fold rec_id _ ih => exact wf_erase _ fold rec_id ih
  | prepare enabled _ ih => exact wf_prepare_insert enabled _ ih
  | update enabled fold data new_data _ ih =>
    exact wf_search_and_update enabled _ fold data new_data ih
  | remove_all fold in_page _ ih => exact wf_remove_all _ fold in_page ih

/-- Claim C9 invariant: every node held by a bucket chain hashes to that
bucket: node.fold mod n_cells = bucket index. -/
def bucket_fold_invariant (p : btr_sea_partition) : Prop :=
  ∀ i, i < p.table.array.length → ∀ a ∈ p.table.cell i,
    ∀ nd, heap_get p.heap a = some nd → nd.fold % p.table.n_cells = i

instance (p : btr_sea_partition) : Decidable (bucket_fold_invariant p) :=
  decidable_of_iff
    (∀ i, i < p.table.array.length → ∀ a ∈ p.table.cell i,
      ((heap_get p.heap a).all
        (fun nd => nd.fold % p.table.n_cells == i)) = true)
    (by
      unfold bucket_fold_invariant
      constructor
      · intro h i hi a ha nd hnd
        have hb := h i hi a ha
        rw [hnd] at hb
        simpa using hb
      · intro h i hi a ha
        rcases hg : heap_get p.heap a with _ | nd
        · rfl
        · simpa using h i hi a ha nd hg)

/-- Claim C9: in every partition state reachable through the hash-table
operations (create, insert, erase with its slab compaction, prepare_insert,
the in-place record update, and page-wide removal), every node in every
bucket chain satisfies node.fold mod n_cells = bucket index; in particular
insert places a node in the cell computed from its fold and the compaction
of cleanup_after_erase relinks the moved top node into the cell computed
from the moved node's own fold. -/
theorem c9_reachable_bucket_fold_invariant (p : btr_sea_partition)
    (h : partition_reachable p) : bucket_fold_invariant p := by
  have hwf := wf_of_reachable p h
  intro i hi a ha nd hnd
  rcases hwf.chain_sound i hi a ha with ⟨nd2, hget, hfold⟩
  rw [hget] at hnd
  cases hnd
  exact hfold

/-- Witness for C9: a concrete reachable state (two inserts, one erase with
compaction, on a two-cell table) evaluated against the invariant. -/
theorem c9_reachable_bucket_fold_invariant_witness :
    partition_reachable
      ((((btr_sea_partition.create 2).prepare_insert true).insert 5 11).insert 8 12) ∧
    bucket_fold_invariant
      ((((btr_sea_partition.create 2).prepare_insert true).insert 5 11).insert 8 12) := by
  refine ⟨?_, ?_⟩
  · exact .insert 8 12 (.insert 5 11 (.prepare true (.create 2)))
  · exact c9_reachable_bucket_fold_invariant _
      (.insert 8 12 (.insert 5 11 (.prepare true (.create 2))))

/-! ## Claim C3: one hash entry per run of equal-fold records

Embedding of the fold/record collection loop of
btr_search_build_page_hash_index (btr0sea.cc lines 1677-1722).  recs is the
list of user records of the page in page order, after the metadata-record
skip; fold_of r is rec_fold(r, index, n_fields, n_bytes); the result is the
list of (fold, rec) pairs subsequently passed to ha_insert_for_fold. -/

def build_page_folds_loop (left_side : Bool) (fold_of : Nat → Nat) :
    Nat → Nat → List Nat → List (Nat × Nat)
  | rec_id, fold, [] =>
    -- page_rec_get_next reached the supremum (lines 1690-1700)
    if left_side then [] else [(fold, rec_id)]
  | rec_id, fold, next_rec :: rest =>
    let next_fold := fold_of next_rec
    (if fold ≠ next_fold then
      if left_side then [(next_fold, next_rec)] else [(fold, rec_id)]
    else []) ++ build_page_folds_loop left_side fold_of next_rec next_fold rest

def btr_search_build_page_hash_index_folds (left_side : Bool)
    (fold_of : Nat → Nat) : List Nat → List (Nat × Nat)
  | [] => []
  | r :: rs =>
    (if left_side then [(fold_of r, r)] else []) ++
      build_page_folds_loop left_side fold_of r (fold_of r) rs

/-- Modelled from the spec: the maximal runs of consecutive records with
equal fold, in page order.  The accumulator holds the current run in
reverse; cur is its most recent record. -/
def fold_runs_go (fold_of : Nat → Nat) (cur : Nat) (acc : List Nat) :
    List Nat → List (List Nat)
  | [] => [acc.reverse]
  | y :: ys =>
    if fold_of cur = fold_of y then fold_runs_go fold_of y (y :: acc) ys
    else acc.reverse :: fold_runs_go fold_of y [y] ys

/-- Modelled from the spec: split a record list into maximal runs of
consecutive equal-fold records. -/
def fold_runs (fold_of : Nat → Nat) : List Nat → List (List Nat)
  | [] => []
  | x :: xs => fold_runs_go fold_of x [x] xs

/-- Modelled from the spec: the record of a run that represents it in the
hash index: leftmost when left_side, rightmost otherwise. -/
def run_representative (left_side : Bool) (run : List Nat) : Nat :=
  if left_side then run.headD 0 else run.getLastD 0

theorem fold_runs_go_first (f : Nat → Nat) :
    ∀ (rest : List Nat) (cur : Nat) (acc : List Nat),
    ∃ t rs, fold_runs_go f cur acc rest = (acc.reverse ++ t) :: rs := by
  intro rest
  induction rest with
  | nil =>
    intro cur acc
    exact ⟨[], [], by simp [fold_runs_go]⟩
  | cons y ys ih =>
    intro cur acc
    by_cases h : f cur = f y
    · rcases ih y (y :: acc) with ⟨t, rs, hr⟩
      refine ⟨y :: t, rs, ?_⟩
      rw [fold_runs_go, if_pos h, hr]
      simp
    · exact ⟨[], fold_runs_go f y [y] ys, by simp [fold_runs_go, h]⟩

theorem build_loop_runs (left_side : Bool) (f : Nat → Nat) :
    ∀ (rest : List Nat) (cur : Nat) (acc' : List Nat),
    build_page_folds_loop left_side f cur (f cur) rest =
      if left_side then
        ((fold_runs_go f cur (cur :: acc') rest).tail).map
          (fun run => (f (run.headD 0), run.headD 0))
      else
        (fold_runs_go f cur (cur :: acc') rest).map
          (fun run => (f (run.getLastD 0), run.getLastD 0)) := by
  intro rest
  induction rest with
  | nil =>
    intro cur acc'
    rcases left_side with _ | _
    · simp [build_page_folds_loop, fold_runs_go, List.getLastD_concat]
    · simp [build_page_folds_loop, fold_runs_go]
  | cons y ys ih =>
    intro cur acc'
    by_cases h : f cur = f y
    · have hloop : build_page_folds_loop left_side f cur (f cur) (y :: ys) =
          build_page_folds_loop left_side f y (f y) ys := by
        rw [build_page_folds_loop]
        simp [h]
      rw [hloop, fold_runs_go, if_pos h]
      exact ih y (cur :: acc')
    · have hloop : build_page_folds_loop left_side f cur (f cur) (y :: ys) =
          (if left_side then [(f y, y)] else [(f cur, cur)]) ++
            build_page_folds_loop left_side f y (f y) ys := by
        rw [build_page_folds_loop]
        simp [h]
      rw [hloop, fold_runs_go, if_neg h]
      rcases fold_runs_go_first f ys y [y] with ⟨t, rs, hr⟩
      have ihy := ih y []
      rcases left_side with _ | _
      · simp only [if_neg (by simp : ¬(false = true))] at ihy ⊢
        rw [ihy]
        simp [List.getLastD_concat]
      · simp only [if_pos rfl] at ihy ⊢
        rw [ihy, hr]
        simp

/-- Claim C3: for every page and signature, the per-page build emits
exactly one (fold, rec) entry per maximal run of consecutive records with
equal fold, the entry pointing at the leftmost record of the run when
left_side is true and at the rightmost when left_side is false; in
particular a page whose user records all share one fold yields exactly one
entry. -/
theorem c3_build_page_hash_index_one_entry_per_run (left_side : Bool)
    (fold_of : Nat → Nat) (recs : List Nat) :
    btr_search_build_page_hash_index_folds left_side fold_of recs =
      (fold_runs fold_of recs).map
        (fun run => (fold_of (run_representative left_side run),
          run_representative left_side run)) := by
  rcases recs with _ | ⟨r, rs⟩
  · rfl
  · rw [btr_search_build_page_hash_index_folds, fold_runs]
    have hlr := build_loop_runs left_side fold_of rs r []
    rcases fold_runs_go_first fold_of rs r [r] with ⟨t, rs2, hr⟩
    rcases left_side with _ | _
    · simp only [if_neg (by simp : ¬(false = true))] at hlr ⊢
      rw [hlr]
      simp [run_representative]
    · simp only [if_pos rfl] at hlr ⊢
      rw [hlr, hr]
      simp [run_representative]

/-! ## Claims C10 and C8: the mutation callbacks

Shared state for btr_search_drop_page_hash_index and the insert-path
callbacks.  Page navigation (page0page.h) and rec_fold on page records
enter as oracle fields; record pointers are Nat identities.  dict_index_t
pointer identity is modelled by Nat references: block.index and the
cursor's index() hold references, and the index field below is the object
the block's reference designates. -/

/-- Fields of dict_index_t that the AHI mutation callbacks touch. -/
structure dict_index_mem where
  id : Nat
  freed : Bool
  ref_count : Nat
deriving Repr, DecidableEq

/-- State touched by the AHI mutation callbacks: the global enabled flag
and partition, the buffer block with its page, and the owning index
object.  page_recs lists the user records of the page in page order (the
drop path walks them); page_next, is_supremum, is_infimum are the page
cursor primitives (page0page.h, outside src/); fold_of (r, n_fields,
n_bytes) is rec_fold of record r under the given signature; in_page is the
page-frame address test of ha_remove_all_nodes_to_page. -/
structure ahi_mut_state where
  enabled : Bool
  part : btr_sea_partition
  block : buf_block_t
  index : dict_index_mem
  page_recs : List Nat
  page_index_id : Nat
  fold_of : Nat → Nat → Nat → Nat
  is_metadata : Nat → Bool
  in_page : Nat → Bool
  page_next : Nat → Option Nat
  is_supremum : Nat → Bool
  is_infimum : Nat → Bool

/-- Fold collection loop of btr_search_drop_page_hash_index (btr0sea.cc
lines 1478-1501): cache the fold of every user record, skipping a fold
equal to the previous one when the previous one is nonzero. -/
def drop_collect_folds_go (fold_of1 : Nat → Nat) :
    Nat → List Nat → List Nat
  | _, [] => []
  | prev_fold, r :: rest =>
    let fold := fold_of1 r
    (if fold = prev_fold ∧ prev_fold ≠ 0 then [] else [fold]) ++
      drop_collect_folds_go fold_of1 fold rest

def drop_collect_folds (fold_of1 : Nat → Nat) (recs : List Nat) : List Nat :=
  drop_collect_folds_go fold_of1 0 recs

/-- Embedding of btr_search_drop_page_hash_index (btr0sea.cc lines
1371-1551).  fuel bounds the retry loop; in this sequential embedding the
retried comparisons re-read unchanged state, so the retries never fire.
The lazy free of a detached index (btr_search_lazy_free) releases
dictionary memory outside the modelled state; the ref_count = 0 case is
the ut_error assertion. -/
def btr_search_drop_page_hash_index_go (garbage_collect : Bool) :
    Nat → ahi_mut_state → ahi_mut_state
  | 0, st => st
  | fuel + 1, st =>
    let retry := btr_search_drop_page_hash_index_go garbage_collect fuel st
    match st.block.index with
    | none => st
    | some index_ref =>
      -- rd_lock; dict_index_t* index = block->index; freed check (1400-1415)
      let is_freed := st.index.freed
      let body : ahi_mut_state :=
        -- lines 1417-1550, entered under the latch mode chosen above
        if ¬st.enabled then st
        else
          let n_fields := st.block.curr_n_fields
          let n_bytes := st.block.curr_n_bytes
          let n_recs := st.page_recs.length
          if n_recs = 0 then st    -- corrupted adaptive hash index (1449-1452)
          else
            -- metadata record skip (1464-1473)
            let recs :=
              match st.page_recs with
              | r :: rest => if st.is_metadata r then rest else st.page_recs
              | [] => []
            let folds :=
              if recs = [] then []
              else drop_collect_folds (fun r => st.fold_of r n_fields n_bytes)
                recs
            -- all_deleted (1503-1550)
            if ¬is_freed ∧ st.block.index = none then st
            else if st.block.curr_n_fields ≠ n_fields ∨
                st.block.curr_n_bytes ≠ n_bytes then retry
            else
              let part := folds.foldl
                (fun pp fold => ha_remove_all_nodes_to_page pp fold st.in_page)
                st.part
              let index :=
                if st.index.ref_count = 0 then st.index
                else { st.index with ref_count := st.index.ref_count - 1 }
              { st with
                part := part,
                index := index,
                block := { st.block with index := none } }
      if is_freed then
        -- rd_unlock, wr_lock, re-check the block's index pointer (1405-1411)
        if st.block.index = some index_ref then body else retry
      else if garbage_collect then st
      else body

def btr_search_drop_page_hash_index (garbage_collect : Bool)
    (st : ahi_mut_state) : ahi_mut_state :=
  btr_search_drop_page_hash_index_go garbage_collect 2 st

/-- Claim C10: for every block whose owning index is not marked freed,
btr_search_drop_page_hash_index with garbage_collect = true returns with
the whole state unchanged: the hash table, the block's curr_* fields and
index pointer, and the index's ref_count are all untouched. -/
theorem c10_drop_page_hash_index_garbage_collect_noop (st : ahi_mut_state)
    (h : ∀ r, st.block.index = some r → st.index.freed = false) :
    btr_search_drop_page_hash_index true st = st := by
  unfold btr_search_drop_page_hash_index btr_search_drop_page_hash_index_go
  rcases hb : st.block.index with _ | r
  · rfl
  · simp only [h r hb, Bool.false_eq_true, if_false, if_true]

/-- State for the C10 witness: a hashed block owned by a live index. -/
def c10_state : ahi_mut_state :=
  { enabled := true,
    part := (((btr_sea_partition.create 2).prepare_insert true).insert 5 11),
    block := ⟨3, 1, 0, true, 1, 0, true, some 1, 2⟩,
    index := ⟨7, false, 1⟩,
    page_recs := [11, 12],
    page_index_id := 7,
    fold_of := fun r _ _ => r % 3,
    is_metadata := fun _ => false,
    in_page := fun r => r = 11 ∨ r = 12,
    page_next := fun r => if r = 11 then some 12 else none,
    is_supremum := fun _ => false,
    is_infimum := fun _ => false }

/-- Witness for C10: the garbage-collect drop leaves the concrete state
untouched. -/
theorem c10_drop_page_hash_index_garbage_collect_noop_witness :
    btr_search_drop_page_hash_index true c10_state = c10_state :=
  c10_drop_page_hash_index_garbage_collect_noop c10_state
    (fun _ _ => rfl)

/-- Embedding of btr_search_update_hash_on_insert (btr0sea.cc lines
2009-2153), the general insert path.  cursor_index_ref is the pointer
value of cursor->index(); the record inserted next to the cursor is found
through page_next as the source does.  The write-latch re-check of the
enabled flag and of block->index (lines 2080, 2097, 2119, 2136, taken at
the first latch acquisition) re-reads values this sequential embedding has
already tested, and is placed once before the first possible insert. -/
def btr_search_update_hash_on_insert (st : ahi_mut_state) (cursor : btr_cur)
    (cursor_index_ref : Nat) : ahi_mut_state :=
  if ¬st.enabled then st
  else
    match st.block.index with
    | none => st
    | some index_ref =>
      if index_ref ≠ cursor_index_ref then
        btr_search_drop_page_hash_index false st
      else
        let n_fields := st.block.curr_n_fields
        let n_bytes := st.block.curr_n_bytes
        let left_side := st.block.curr_left_side
        let rec_id := cursor.rec_id
        match st.page_next rec_id with
        | none => btr_search_drop_page_hash_index false st
        | some ins_rec =>
          match st.page_next ins_rec with
          | none => btr_search_drop_page_hash_index false st
          | some next_rec =>
            let ins_fold := st.fold_of ins_rec n_fields n_bytes
            let next_fold := if ¬st.is_supremum next_rec then
                st.fold_of next_rec n_fields n_bytes
              else 0
            let p0 := st.part.prepare_insert st.enabled
            if ¬st.enabled ∨ st.block.index = none then { st with part := p0 }
            else
              -- lines 2073-2089
              let fold? : Option Nat :=
                if ¬st.is_infimum rec_id ∧ ¬st.is_metadata rec_id then
                  some (st.fold_of rec_id n_fields n_bytes)
                else none
              let p1 := match fold? with
                | none => if left_side then p0.insert ins_fold ins_rec else p0
                | some _ => p0
              -- lines 2091-2108
              let p2 := match fold? with
                | some fold =>
                  if fold ≠ ins_fold then
                    if ¬left_side then p1.insert fold rec_id
                    else p1.insert ins_fold ins_rec
                  else p1
                | none => p1
              -- check_next_rec, lines 2110-2147
              if st.is_supremum next_rec then
                if ¬left_side then { st with part := p2.insert ins_fold ins_rec }
                else { st with part := p2 }
              else if ins_fold ≠ next_fold then
                if ¬left_side then { st with part := p2.insert ins_fold ins_rec }
                else { st with part := p2.insert next_fold next_rec }
              else { st with part := p2 }

/-- Embedding of btr_search_update_hash_node_on_insert (btr0sea.cc lines
1939-2002): when the previous search was hash-resolved with the block's
current signature and the hash is built for rightmost records, retarget
the existing node for cursor->fold from the cursor record to the newly
inserted successor record; otherwise run the general insert path. -/
def btr_search_update_hash_node_on_insert (st : ahi_mut_state)
    (cursor : btr_cur) (cursor_index_ref : Nat) : ahi_mut_state :=
  if ¬st.enabled then st
  else
    let rec_id := cursor.rec_id
    match st.block.index with
    | none => st
    | some index_ref =>
      if index_ref ≠ cursor_index_ref then
        btr_search_drop_page_hash_index false st
      else
        -- wr_lock; re-check block->index and the enabled flag (1974-1977)
        if st.block.index = none ∨ ¬st.enabled then st
        else if cursor.flag = .BTR_CUR_HASH ∧
            cursor.n_fields = st.block.curr_n_fields ∧
            cursor.n_bytes = st.block.curr_n_bytes ∧
            st.block.curr_left_side = false then
          match st.page_next rec_id with
          | some new_rec =>
            { st with part := (ha_search_and_update_if_found st.enabled
                st.part cursor.fold rec_id new_rec).1 }
          | none => st   -- ut_ad(corrupted page)
        else
          btr_search_update_hash_on_insert st cursor cursor_index_ref

/-- State for claim C8: a hashed block whose signature was built for
leftmost records (curr_left_side = true), one AHI node for fold 7 pointing
at record 10, and record 11 freshly inserted between 10 and the supremum
12; every record folds to 7 under the block's signature. -/
def c8_st : ahi_mut_state :=
  { enabled := true,
    part := ((btr_sea_partition.create 1).prepare_insert true).insert 7 10,
    block := ⟨0, 1, 0, true, 1, 0, true, some 1, 3⟩,
    index := ⟨1, false, 1⟩,
    page_recs := [10, 11],
    page_index_id := 1,
    fold_of := fun _ _ _ => 7,
    is_metadata := fun _ => false,
    in_page := fun _ => true,
    page_next := fun r =>
      if r = 10 then some 11 else if r = 11 then some 12 else none,
    is_supremum := fun r => decide (r = 12),
    is_infimum := fun _ => false }

/-- Cursor for claim C8: the prior search was hash-resolved (flag
BTR_CUR_HASH) with the block's current signature, positioned on record 10
with fold 7. -/
def c8_cursor : btr_cur :=
  ⟨0, 0, 0, 0, 1, 0, 7, .BTR_CUR_HASH, 10⟩

/-- Claim C8, counterexample: the premise of the claim holds — the prior
search was hash-resolved and the newly inserted record 11 immediately
follows the cursor record 10 with the same fold 7 — yet because
curr_left_side is true the fast path is not taken: the node for fold 7
still points at record 10, whereas the claimed retarget through
ha_search_and_update_if_found would have moved it to record 11.  The fast
path additionally requires the block's current signature to match the
cursor's and curr_left_side to be false. -/
theorem c8_counterexample_left_side_skips_retarget :
    c8_cursor.flag = .BTR_CUR_HASH ∧
    c8_st.page_next c8_cursor.rec_id = some 11 ∧
    c8_st.fold_of 11 c8_st.block.curr_n_fields c8_st.block.curr_n_bytes
      = c8_cursor.fold ∧
    c8_st.fold_of c8_cursor.rec_id c8_st.block.curr_n_fields
      c8_st.block.curr_n_bytes = c8_cursor.fold ∧
    heap_get (btr_search_update_hash_node_on_insert c8_st c8_cursor 1).part.heap
      (0, 0) = some ⟨7, 10⟩ ∧
    heap_get (ha_search_and_update_if_found true c8_st.part 7 10 11).1.heap
      (0, 0) = some ⟨7, 11⟩ := by
  decide

/-- Claim C8, amended: with the AHI enabled, the block owned by the
cursor's index, and the inserted record new_rec immediately following the
cursor record, btr_search_update_hash_node_on_insert retargets the
existing node in place through ha_search_and_update_if_found exactly when
the prior search was hash-resolved (flag BTR_CUR_HASH) AND the cursor's
prefix signature equals the block's current signature AND the block's hash
was built for rightmost records (curr_left_side = false); in every other
case it runs the general path btr_search_update_hash_on_insert.  (The
claim's condition — hash hit and equal fold of the neighbouring record —
is neither necessary nor sufficient.) -/
theorem c8_node_on_insert_fast_path_characterization
    (st : ahi_mut_state) (cursor : btr_cur) (iref new_rec : Nat)
    (hen : st.enabled = true) (hidx : st.block.index = some iref)
    (hnext : st.page_next cursor.rec_id = some new_rec) :
    btr_search_update_hash_node_on_insert st cursor iref =
      if cursor.flag = .BTR_CUR_HASH ∧
          cursor.n_fields = st.block.curr_n_fields ∧
          cursor.n_bytes = st.block.curr_n_bytes ∧
          st.block.curr_left_side = false then
        { st with part := (ha_search_and_update_if_found st.enabled st.part
            cursor.fold cursor.rec_id new_rec).1 }
      else btr_search_update_hash_on_insert st cursor iref := by
  unfold btr_search_update_hash_node_on_insert
  rw [hen, hidx]
  simp only [not_true, if_false]
  rw [if_neg (fun hne : iref ≠ iref => hne rfl)]
  rw [if_neg (fun hor : some iref = none ∨ False => by
    rcases hor with h | h
    · exact Option.noConfusion h
    · exact h.elim)]
  split_ifs with hc
  · rw [hnext]
  · rfl

/-- Witness for the amended C8 theorem at the concrete C8 state: the
condition fails on curr_left_side, so the general path is taken. -/
theorem c8_node_on_insert_fast_path_characterization_witness :
    btr_search_update_hash_node_on_insert c8_st c8_cursor 1 =
      if c8_cursor.flag = .BTR_CUR_HASH ∧
          c8_cursor.n_fields = c8_st.block.curr_n_fields ∧
          c8_cursor.n_bytes = c8_st.block.curr_n_bytes ∧
          c8_st.block.curr_left_side = false then
        { c8_st with part := (ha_search_and_update_if_found c8_st.enabled
            c8_st.part c8_cursor.fold c8_cursor.rec_id 11).1 }
      else btr_search_update_hash_on_insert c8_st c8_cursor 1 :=
  c8_node_on_insert_fast_path_characterization c8_st c8_cursor 1 11
    rfl rfl rfl

/-! ## Claim C1: btr_search_guess_on_hash (btr0sea.cc lines 1202-1361)
and btr_search_check_guess (lines 894-1054) -/

/-- Page-cursor search modes (page0types.h, outside src/). -/
inductive page_cur_mode where
  | PAGE_CUR_G
  | PAGE_CUR_GE
  | PAGE_CUR_L
  | PAGE_CUR_LE
deriving Repr, DecidableEq

/-- Environment of btr_search_check_guess for one page: collaborators of
btr0sea.cc modelled as oracles on record identities.  n_unique is
dict_index_get_n_unique_in_tree; rec_status_ok bundles the not_redundant
test with the REC_STATUS_INSTANT/ORDINARY switch (true on redundant
tables); cmp r is cmp_dtuple_rec_with_match of the searched tuple against
record r, returning the three-way comparison and the matched-fields
count. -/
structure check_guess_env where
  n_unique : Nat
  is_user_rec : Nat → Bool
  is_leaf_rec : Nat → Bool
  rec_status_ok : Nat → Bool
  cmp : Nat → Int × Nat
  page_prev : Nat → Option Nat
  page_next : Nat → Option Nat
  is_infimum : Nat → Bool
  is_supremum : Nat → Bool
  page_has_prev : Bool
  page_has_next : Bool

/-- Embedding of btr_search_check_guess (btr0sea.cc lines 894-1054):
checks the guessed position against the tuple, the cursor record and one
neighbour; returns success and the cursor with its match fields updated
exactly where the source assigns them. -/
def btr_search_check_guess (env : check_guess_env) (cursor : btr_cur)
    (can_only_compare_to_cursor_rec : Bool) (mode : page_cur_mode) :
    Bool × btr_cur :=
  let n_unique := env.n_unique
  let r := cursor.rec_id
  if ¬env.is_user_rec r ∨ ¬env.is_leaf_rec r then (false, cursor)
  else if ¬env.rec_status_ok r then (false, cursor)
  else
    let cmp := (env.cmp r).1
    let m := (env.cmp r).2
    -- first stage: some b means goto exit_func with success = b
    let stage1 : Option Bool × btr_cur :=
      match mode with
      | .PAGE_CUR_GE =>
        if cmp > 0 then (some false, cursor)
        else
          let cursor := { cursor with up_match := m }
          if m ≥ n_unique then (some true, cursor) else (none, cursor)
      | .PAGE_CUR_LE =>
        if cmp < 0 then (some false, cursor)
        else (none, { cursor with low_match := m })
      | .PAGE_CUR_G =>
        if cmp ≥ 0 then (some false, cursor) else (none, cursor)
      | .PAGE_CUR_L =>
        if cmp ≤ 0 then (some false, cursor) else (none, cursor)
    match stage1 with
    | (some b, cursor) => (b, cursor)
    | (none, cursor) =>
      if can_only_compare_to_cursor_rec then (false, cursor)
      else if mode = .PAGE_CUR_G ∨ mode = .PAGE_CUR_GE then
        match env.page_prev r with
        | none => (false, cursor)
        | some prev_rec =>
          if env.is_infimum prev_rec then (¬env.page_has_prev, cursor)
          else if ¬env.rec_status_ok prev_rec then (false, cursor)
          else
            let cmp2 := (env.cmp prev_rec).1
            if mode = .PAGE_CUR_GE then (decide (cmp2 > 0), cursor)
            else (decide (cmp2 ≥ 0), cursor)
      else
        match env.page_next r with
        | none => (false, cursor)
        | some next_rec =>
          if env.is_supremum next_rec then
            if ¬env.page_has_next then (true, { cursor with up_match := 0 })
            else (false, cursor)
          else if ¬env.rec_status_ok next_rec then (false, cursor)
          else
            let cmp2 := (env.cmp next_rec).1
            let m2 := (env.cmp next_rec).2
            if mode = .PAGE_CUR_LE then
              (decide (cmp2 < 0), { cursor with up_match := m2 })
            else (decide (cmp2 ≤ 0), cursor)

/-- BTR_SEARCH_LEAF = RW_S_LATCH = 1 (btr0btr.h / sync0types.h). -/
def BTR_SEARCH_LEAF : Nat := 1

/-- BTR_MODIFY_LEAF = RW_X_LATCH = 2 (btr0btr.h / sync0types.h). -/
def BTR_MODIFY_LEAF : Nat := 2

/-- buf_page_t::UNFIXED = 1 << 29 (buf0buf.h, outside src/). -/
def buf_page_UNFIXED : Nat := 2 ^ 29

/-- btr_search_get_n_fields (btr0sea.h): the number of tuple fields the
fold consumes, counting a partial field for a nonzero n_bytes. -/
def btr_search_get_n_fields (cursor : btr_cur) : Nat :=
  cursor.n_fields + (if cursor.n_bytes > 0 then 1 else 0)

/-- Chain lookup of btr_search_guess_on_hash (btr0sea.cc lines 1272-1282):
walk the cell of the fold and return the first node whose fold matches. -/
def btr_sea_partition.lookup (p : btr_sea_partition) (fold : Nat) :
    Option ahi_node :=
  match (p.table.cell (p.table.calc_hash fold)).find? (fun a =>
      match heap_get p.heap a with
      | some nd => nd.fold = fold
      | none => false) with
  | some a => heap_get p.heap a
  | none => none

/-- The fail label of btr_search_guess_on_hash (btr0sea.cc lines
1255-1268): flag the cursor BTR_CUR_HASH_FAIL and clear last_hash_succ. -/
def guess_fail (info : dict_index_ahi) (c : btr_cur) :
    Bool × btr_cur × dict_index_ahi :=
  (false, { c with flag := .BTR_CUR_HASH_FAIL },
   { info with last_hash_succ := false })

/-- Per-block oracles of the found-record path of btr_search_guess_on_hash
(buf0buf collaborators, outside src/): the two latch tries, the page
state word, whether block->index is the searched index object, the id of
block->index, the index id stored on the page frame, and the page
structure seen by btr_search_check_guess. -/
structure guess_block_env where
  s_latch_ok : Bool
  x_latch_ok : Bool
  state : Nat
  index_is_same : Bool
  index_id : Nat
  page_index_id : Nat
  cge : check_guess_env

/-- Environment of btr_search_guess_on_hash: the global AHI state, the
searched index's search_info and id, the row format flag, the searched
tuple with its REC_INFO_MIN_REC_FLAG bit, and the block each record
identity resolves to (buf_pool.block_from_ahi). -/
structure guess_env where
  enabled : Bool
  part : btr_sea_partition
  info : dict_index_ahi
  index_id : Nat
  comp : Bool
  tuple : List dfield_t
  tuple_min_rec : Bool
  block_of : Nat → guess_block_env

/-- Embedding of btr_search_guess_on_hash (btr0sea.cc lines 1202-1361).
Returns (success, cursor, search_info).  The early gates (1217-1236)
return false without touching the cursor flag; only failures after the
cursor was flagged BTR_CUR_HASH go through guess_fail. -/
def btr_search_guess_on_hash (env : guess_env) (mode : page_cur_mode)
    (latch_mode : Nat) (cursor : btr_cur) :
    Bool × btr_cur × dict_index_ahi :=
  if latch_mode > BTR_MODIFY_LEAF ∨ ¬env.info.last_hash_succ ∨
      env.info.n_hash_potential = 0 ∨ env.tuple_min_rec then
    (false, cursor, env.info)
  else
    let cursor := { cursor with n_fields := env.info.n_fields,
                                n_bytes := env.info.n_bytes }
    if env.tuple.length < btr_search_get_n_fields cursor then
      (false, cursor, env.info)
    else
      let fold := dtuple_fold env.comp (index_id_seed env.index_id)
        env.tuple cursor.n_fields cursor.n_bytes
      let cursor := { cursor with fold := fold, flag := .BTR_CUR_HASH }
      if ¬env.enabled then guess_fail env.info cursor
      else
        match env.part.lookup fold with
        | none => guess_fail env.info cursor
        | some nd =>
          let blk := env.block_of nd.rec_id
          let got_latch := if latch_mode = BTR_SEARCH_LEAF then blk.s_latch_ok
            else blk.x_latch_ok
          if ¬got_latch then guess_fail env.info cursor
          else if blk.state < buf_page_UNFIXED then guess_fail env.info cursor
          else if ¬blk.index_is_same ∧ env.index_id = blk.index_id then
            guess_fail env.info cursor
          else
            -- btr_cur_position (line 1337)
            let cursor := { cursor with rec_id := nd.rec_id }
            if env.index_id ≠ blk.page_index_id then guess_fail env.info cursor
            else if (btr_search_check_guess blk.cge cursor false mode).1 then
              (true, (btr_search_check_guess blk.cge cursor false mode).2,
               btr_search_guess_success_info env.info)
            else
              guess_fail env.info
                (btr_search_check_guess blk.cge cursor false mode).2

/-- Page environment of the C1 success scenario: the cursor record 20 is
a user record on a leaf page, the tuple compares equal to it with one
matched field, and 20 is the last user record of the last page of the
tree. -/
def c1_cge : check_guess_env :=
  { n_unique := 2,
    is_user_rec := fun _ => true,
    is_leaf_rec := fun _ => true,
    rec_status_ok := fun _ => true,
    cmp := fun _ => (0, 1),
    page_prev := fun _ => none,
    page_next := fun r => if r = 20 then some 21 else none,
    is_infimum := fun _ => false,
    is_supremum := fun r => decide (r = 21),
    page_has_prev := false,
    page_has_next := false }

/-- Environment of the C1 theorems: AHI enabled, search info recommending
one whole field, a single AHI node for record 20 whose fold is the tuple
fold, and a block whose latches are free, whose page is fixed-valid and
stores the searched index id 4. -/
def c1_env : guess_env :=
  { enabled := true,
    part := ((btr_sea_partition.create 1).prepare_insert true).insert
      (dtuple_fold true (index_id_seed 4) [⟨false, [0x41], 0⟩] 1 0) 20,
    info := ⟨1, 0, true, 1, true, 1⟩,
    index_id := 4,
    comp := true,
    tuple := [⟨false, [0x41], 0⟩],
    tuple_min_rec := false,
    block_of := fun _ =>
      { s_latch_ok := true, x_latch_ok := true, state := buf_page_UNFIXED,
        index_is_same := true, index_id := 4, page_index_id := 4,
        cge := c1_cge } }

/-- Cursor before the guess: positioned nowhere, flagged from a previous
binary search. -/
def c1_cursor : btr_cur :=
  ⟨0, 0, 0, 0, 0, 0, 0, .BTR_CUR_BINARY, 0⟩

/-- Claim C1, counterexample: with latch_mode = 33 > BTR_MODIFY_LEAF the
guess returns false through the early gate (btr0sea.cc lines 1217-1222),
and the cursor flag is left at BTR_CUR_BINARY, not set to
BTR_CUR_HASH_FAIL as the claim demands of every false-returning path;
the same gate also leaves last_hash_succ set. -/
theorem c1_counterexample_early_gate_keeps_flag :
    (btr_search_guess_on_hash c1_env .PAGE_CUR_LE 33 c1_cursor).1 = false ∧
    (btr_search_guess_on_hash c1_env .PAGE_CUR_LE 33 c1_cursor).2.1.flag
      = .BTR_CUR_BINARY ∧
    (btr_search_guess_on_hash c1_env .PAGE_CUR_LE 33 c1_cursor).2.1.flag
      ≠ .BTR_CUR_HASH_FAIL ∧
    (btr_search_guess_on_hash c1_env .PAGE_CUR_LE 33
      c1_cursor).2.2.last_hash_succ = true := by
  decide

/-- The cursor as positioned by btr_search_guess_on_hash on record r:
signature taken from the search info, fold computed from the tuple, flag
BTR_CUR_HASH (btr0sea.cc lines 1241-1247 and 1337). -/
def guess_positioned_cursor (env : guess_env) (cursor : btr_cur) (r : Nat) :
    btr_cur :=
  { cursor with
    n_fields := env.info.n_fields,
    n_bytes := env.info.n_bytes,
    fold := dtuple_fold env.comp (index_id_seed env.index_id) env.tuple
      env.info.n_fields env.info.n_bytes,
    flag := .BTR_CUR_HASH,
    rec_id := r }

set_option maxHeartbeats 1000000 in
/-- Claim C1, amended: once the early gates have passed (latch mode at
most BTR_MODIFY_LEAF, last_hash_succ set, nonzero n_hash_potential, tuple
not the minimum record, and enough tuple fields for the fold), a true
return of btr_search_guess_on_hash means the cursor was positioned on the
record of the looked-up node, flagged BTR_CUR_HASH, on a page whose stored
index id equals the searched index id, and btr_search_check_guess accepted
that cursor producing the returned one, with n_hash_potential bumped; and
a false return past those gates leaves the cursor flagged
BTR_CUR_HASH_FAIL with last_hash_succ cleared.  Before those gates a false
return leaves the flag untouched (the counterexample). -/
theorem c1_guess_on_hash_success_sound_and_fail_flags
    (env : guess_env) (mode : page_cur_mode) (latch_mode : Nat)
    (cursor : btr_cur)
    (hgate : ¬(latch_mode > BTR_MODIFY_LEAF ∨ ¬env.info.last_hash_succ ∨
      env.info.n_hash_potential = 0 ∨ env.tuple_min_rec))
    (hlen : ¬(env.tuple.length < btr_search_get_n_fields
      { cursor with n_fields := env.info.n_fields,
                    n_bytes := env.info.n_bytes })) :
    ((btr_search_guess_on_hash env mode latch_mode cursor).1 = true →
      ∃ nd c0,
        env.part.lookup c0.fold = some nd ∧
        c0.rec_id = nd.rec_id ∧
        c0.flag = .BTR_CUR_HASH ∧
        (env.block_of nd.rec_id).page_index_id = env.index_id ∧
        btr_search_check_guess (env.block_of nd.rec_id).cge c0 false mode
          = (true, (btr_search_guess_on_hash env mode latch_mode cursor).2.1) ∧
        (btr_search_guess_on_hash env mode latch_mode cursor).2.2
          = btr_search_guess_success_info env.info) ∧
    ((btr_search_guess_on_hash env mode latch_mode cursor).1 = false →
      (btr_search_guess_on_hash env mode latch_mode cursor).2.1.flag
        = .BTR_CUR_HASH_FAIL ∧
      (btr_search_guess_on_hash env mode latch_mode cursor).2.2.last_hash_succ
        = false) := by
  unfold btr_search_guess_on_hash
  rw [if_neg hgate]
  simp only []
  rw [if_neg hlen]
  by_cases hen : env.enabled = true
  case neg =>
    rw [if_pos (fun h : env.enabled = true => hen h)]
    exact ⟨fun h => by simp [guess_fail] at h, fun _ => ⟨rfl, rfl⟩⟩
  case pos =>
    rw [if_neg (fun h : ¬env.enabled = true => h hen)]
    split
    case h_1 heq =>
      exact ⟨fun h => by simp [guess_fail] at h, fun _ => ⟨rfl, rfl⟩⟩
    case h_2 nd heq =>
      split_ifs <;>
        first
          | exact ⟨fun h => by simp [guess_fail] at h, fun _ => ⟨rfl, rfl⟩⟩
          | (rename_i hpid hcg
             refine ⟨fun _ => ?_, fun hfalse => by simp at hfalse⟩
             refine ⟨nd, guess_positioned_cursor env cursor nd.rec_id, ?_,
               rfl, rfl, (not_ne_iff.mp hpid).symm, ?_, rfl⟩
             · exact heq
             · exact Prod.ext hcg rfl)

/-- Witness for the amended C1 theorem: at the concrete success
environment the gates pass, the guess returns true, and the soundness
conclusion is obtained from the theorem. -/
theorem c1_guess_on_hash_success_sound_and_fail_flags_witness :
    ∃ nd c0,
      c1_env.part.lookup c0.fold = some nd ∧
      c0.rec_id = nd.rec_id ∧
      c0.flag = .BTR_CUR_HASH ∧
      (c1_env.block_of nd.rec_id).page_index_id = c1_env.index_id ∧
      btr_search_check_guess (c1_env.block_of nd.rec_id).cge c0 false
        .PAGE_CUR_LE = (true,
          (btr_search_guess_on_hash c1_env .PAGE_CUR_LE 1 c1_cursor).2.1) ∧
      (btr_search_guess_on_hash c1_env .PAGE_CUR_LE 1 c1_cursor).2.2
        = btr_search_guess_success_info c1_env.info :=
  (c1_guess_on_hash_success_sound_and_fail_flags c1_env .PAGE_CUR_LE 1
      c1_cursor (by decide) (by decide)).1 (by decide)
